import Mathlib

/-!
Verification development for the `schduling_ai-` repository.

The repository contains three near-duplicate Python modules (`main.py`,
`main_gemini.py`, `src/main_geminiy.py`) implementing a rule-based
natural-language-to-task scheduler.  This file gives a shallow embedding of
the relevant functions over `List Char` (strings), `Nat`/`Int` arithmetic
(Python `//`/`%` on a positive divisor agree with Euclidean division), and a
leap-aware calendar, together with theorems settling the frozen claims.

Conventions:
* prompts and all other strings are modelled as `List Char` (`Chars`);
* Python `re.search` calls are modelled by deterministic scanners whose
  equivalence with the backtracking regex engine was checked case by case on
  the concrete pattern shapes used by the source;
* Python exceptions are modelled with `Option` (`none` = an exception
  escapes); fallible `int(...)` is `parseIntPy`;
* the ambient `datetime.now()` is an explicit `Date` parameter.
-/

abbrev Chars := List Char

/-- Literal helper: turn a Lean string literal into our character-list model. -/
def str (s : String) : Chars := s.toList

/-- Python `\s` for the ASCII range (space, tab, newline, CR, VT, FF). -/
def isPySpace (c : Char) : Bool :=
  c = ' ' || c = '\t' || c = '\n' || c = '\x0d' || c = '\x0b' || c = '\x0c'

/-- Python `\w` for the ASCII range: letters, digits, underscore. -/
def isWordChar (c : Char) : Bool :=
  c.isAlpha || c.isDigit || c = '_'

/-- `str.lower()` (ASCII). -/
def toLowerStr (s : Chars) : Chars := s.map Char.toLower

/-- `List.span`-style splitting: longest prefix satisfying `p`, and the rest. -/
def spanP (p : Char → Bool) : Chars → Chars × Chars
  | [] => ([], [])
  | c :: r =>
    if p c then
      let (a, b) := spanP p r
      (c :: a, b)
    else ([], c :: r)

theorem spanP_append (p : Char → Bool) (s : Chars) :
    (spanP p s).1 ++ (spanP p s).2 = s := by
  induction s with
  | nil => rfl
  | cons c r ih =>
    simp only [spanP]
    by_cases h : p c = true
    · simp [h, ih]
    · simp [h]

theorem spanP_fst_all (p : Char → Bool) (s : Chars) :
    ∀ c ∈ (spanP p s).1, p c = true := by
  induction s with
  | nil => intro c h; simp [spanP] at h
  | cons d r ih =>
    intro c h
    simp only [spanP] at h
    by_cases hd : p d = true
    · simp [hd] at h
      rcases h with h | h
      · exact h ▸ hd
      · exact ih c h
    · simp [hd] at h

theorem spanP_fst_ne_nil (p : Char → Bool) (s : Chars)
    (h : (spanP p s).1 ≠ []) : ∃ c ∈ s, p c = true := by
  cases s with
  | nil => simp [spanP] at h
  | cons d r =>
    simp only [spanP] at h ⊢
    by_cases hd : p d = true
    · exact ⟨d, by simp, hd⟩
    · simp [hd] at h

/-- Does `pat` occur as a contiguous substring of `s` (Python `pat in s`)? -/
def startsWithStr : Chars → Chars → Bool
  | [], _ => true
  | _ :: _, [] => false
  | p :: ps, c :: cs => p = c && startsWithStr ps cs

def containsSub (pat : Chars) : Chars → Bool
  | [] => startsWithStr pat []
  | s@(_ :: rest) => startsWithStr pat s || containsSub pat rest

theorem startsWithStr_iff (pat s : Chars) :
    startsWithStr pat s = true ↔ ∃ b, s = pat ++ b := by
  induction pat generalizing s with
  | nil => simp [startsWithStr]
  | cons p ps ih =>
    cases s with
    | nil => simp [startsWithStr]
    | cons c cs =>
      simp only [startsWithStr, Bool.and_eq_true, decide_eq_true_eq, ih,
        List.cons_append, List.cons.injEq]
      constructor
      · rintro ⟨rfl, b, rfl⟩; exact ⟨b, rfl, rfl⟩
      · rintro ⟨b, rfl, rfl⟩; exact ⟨rfl, b, rfl⟩

theorem containsSub_iff (pat s : Chars) :
    containsSub pat s = true ↔ ∃ a b, s = a ++ pat ++ b := by
  induction s with
  | nil =>
    simp only [containsSub, startsWithStr_iff]
    constructor
    · rintro ⟨b, h⟩; exact ⟨[], b, by simpa using h⟩
    · rintro ⟨a, b, h⟩
      rcases List.append_eq_nil.mp (List.append_eq_nil.mp h.symm).1 with ⟨rfl, rfl⟩
      exact ⟨b, by simpa using h⟩
  | cons c cs ih =>
    simp only [containsSub, Bool.or_eq_true, startsWithStr_iff, ih]
    constructor
    · rintro (⟨b, h⟩ | ⟨a, b, h⟩)
      · exact ⟨[], b, by simpa using h⟩
      · exact ⟨c :: a, b, by simp [h]⟩
    · rintro ⟨a, b, h⟩
      cases a with
      | nil => exact Or.inl ⟨b, by simpa using h⟩
      | cons a₀ as =>
        simp only [List.cons_append, List.cons.injEq] at h
        exact Or.inr ⟨as, b, h.2⟩

theorem mem_of_containsSub {pat s : Chars} (h : containsSub pat s = true) :
    ∀ c ∈ pat, c ∈ s := by
  rcases (containsSub_iff pat s).mp h with ⟨a, b, rfl⟩
  intro c hc
  simp [hc]

/-- `re.search`: try the anchored matcher at every position, leftmost first. -/
def scanOpt {α : Type} (f : Chars → Option α) : Chars → Option α
  | [] => f []
  | s@(_ :: rest) =>
    match f s with
    | some x => some x
    | none => scanOpt f rest

theorem scanOpt_some {α : Type} {f : Chars → Option α} {s : Chars} {x : α}
    (h : scanOpt f s = some x) : ∃ a b, s = a ++ b ∧ f b = some x := by
  induction s with
  | nil => exact ⟨[], [], rfl, h⟩
  | cons c cs ih =>
    simp only [scanOpt] at h
    cases hf : f (c :: cs) with
    | some y =>
      rw [hf] at h
      simp only [Option.some.injEq] at h
      exact ⟨[], c :: cs, rfl, by rw [hf, h]⟩
    | none =>
      rw [hf] at h
      rcases ih h with ⟨a, b, rfl, hb⟩
      exact ⟨c :: a, b, rfl, hb⟩

/-- Anchored case-insensitive literal: consume `pat`, return the rest. -/
def litCI : Chars → Chars → Option Chars
  | [], s => some s
  | _ :: _, [] => none
  | p :: ps, c :: cs => if p.toLower = c.toLower then litCI ps cs else none

/-- Anchored case-sensitive literal: consume `pat`, return the rest. -/
def litPlain : Chars → Chars → Option Chars
  | [], s => some s
  | _ :: _, [] => none
  | p :: ps, c :: cs => if p = c then litPlain ps cs else none

theorem litPlain_eq_append {pat s r : Chars} (h : litPlain pat s = some r) :
    s = pat ++ r := by
  induction pat generalizing s with
  | nil => simpa [litPlain] using h
  | cons p ps ih =>
    cases s with
    | nil => simp [litPlain] at h
    | cons c cs =>
      simp only [litPlain] at h
      by_cases hpc : p = c
      · subst hpc
        simp only [if_pos rfl] at h
        simp [ih h]
      · simp [hpc] at h

theorem litCI_head {pat s r : Chars} (hpat : pat ≠ [])
    (h : litCI pat s = some r) :
    ∃ c cs, s = c :: cs ∧ c.toLower = pat.head!.toLower := by
  cases pat with
  | nil => exact absurd rfl hpat
  | cons p ps =>
    cases s with
    | nil => simp [litCI] at h
    | cons c cs =>
      simp only [litCI] at h
      by_cases hpc : p.toLower = c.toLower
      · exact ⟨c, cs, rfl, by simp [hpc]⟩
      · simp [hpc] at h

theorem litPlain_head {pat s r : Chars} (hpat : pat ≠ [])
    (h : litPlain pat s = some r) :
    ∃ cs, s = pat.head! :: cs := by
  cases pat with
  | nil => exact absurd rfl hpat
  | cons p ps =>
    rcases litPlain_eq_append h with rfl
    exact ⟨ps ++ r, rfl⟩

/-- `str.split()` (split on whitespace runs, dropping empties).
The first argument accumulates the current word, reversed. -/
def splitWsAux (cur : Chars) : Chars → List Chars
  | [] => if cur.isEmpty then [] else [cur.reverse]
  | c :: rest =>
    if isPySpace c then
      if cur.isEmpty then splitWsAux [] rest
      else cur.reverse :: splitWsAux [] rest
    else splitWsAux (c :: cur) rest

def splitWs (s : Chars) : List Chars := splitWsAux [] s

/-- `str.split(':')` (split on every colon, keeping empties). -/
def splitColonAux (cur : Chars) : Chars → List Chars
  | [] => [cur.reverse]
  | c :: rest =>
    if c = ':' then cur.reverse :: splitColonAux [] rest
    else splitColonAux (c :: cur) rest

def splitColon (s : Chars) : List Chars := splitColonAux [] s

/-- `" ".join(words)`. -/
def joinWords : List Chars → Chars
  | [] => []
  | [w] => w
  | w :: rest => w ++ ' ' :: joinWords rest

/-- Numeric value of a digit character. -/
def charVal (c : Char) : Nat := c.toNat - 48

/-- Value of a string of digit characters (`int(s)` for nonempty digit `s`). -/
def digitsValAux (acc : Nat) : Chars → Nat
  | [] => acc
  | c :: r => digitsValAux (10 * acc + charVal c) r

def digitsVal (s : Chars) : Nat := digitsValAux 0 s

def digitChar : Nat → Char
  | 0 => '0' | 1 => '1' | 2 => '2' | 3 => '3' | 4 => '4'
  | 5 => '5' | 6 => '6' | 7 => '7' | 8 => '8' | 9 => '9'
  | _ => '*'

/-- Decimal rendering of a `Nat`, with explicit fuel for structural recursion. -/
def natReprAux : Nat → Nat → Chars
  | 0, _ => []
  | f + 1, n =>
    if n < 10 then [digitChar n]
    else natReprAux f (n / 10) ++ [digitChar (n % 10)]

def natReprS (n : Nat) : Chars := natReprAux (n + 1) n

/-- Decimal rendering of an `Int` (Python `str`/f-string of an int). -/
def intReprS (i : Int) : Chars :=
  if i < 0 then '-' :: natReprS i.natAbs else natReprS i.natAbs

/-- `f"{n:02d}"` for a natural number. -/
def pad2 (n : Nat) : Chars := if n < 10 then '0' :: natReprS n else natReprS n

/-- `f"{i:02d}"` for an int: zero-pad to total width 2 (sign included). -/
def pad2Int (i : Int) : Chars :=
  if (intReprS i).length < 2 then '0' :: intReprS i else intReprS i

/-- `str.zfill(2)` on a digit string. -/
def zfill2 (s : Chars) : Chars :=
  if s.length ≥ 2 then s else List.replicate (2 - s.length) '0' ++ s

/-- Zero-pad a year to 4 digits (`strftime "%Y"`). -/
def pad4 (n : Nat) : Chars :=
  if n < 10 then '0' :: '0' :: '0' :: natReprS n
  else if n < 100 then '0' :: '0' :: natReprS n
  else if n < 1000 then '0' :: natReprS n
  else natReprS n

/-- Python `int(s)` on a string: strip whitespace, optional sign, digits;
`none` models the raised `ValueError`. -/
def parseIntPyCore : Chars → Option Int
  | [] => none
  | c :: ds =>
    if c = '-' then
      if ds ≠ [] ∧ ds.all Char.isDigit then some (-(digitsVal ds : Int)) else none
    else if c = '+' then
      if ds ≠ [] ∧ ds.all Char.isDigit then some (digitsVal ds : Int) else none
    else if (c :: ds).all Char.isDigit then some (digitsVal (c :: ds) : Int)
    else none

def parseIntPy (s : Chars) : Option Int :=
  parseIntPyCore (((s.dropWhile isPySpace).reverse.dropWhile isPySpace).reverse)

/-! ## Calendar model (proleptic Gregorian, as Python `datetime`/`calendar`) -/

structure Date where
  year : Nat
  month : Nat
  day : Nat
deriving DecidableEq

/-- `calendar.isleap`. -/
def isLeap (y : Nat) : Bool := (y % 4 = 0 && y % 100 ≠ 0) || y % 400 = 0

/-- Number of days in a month (`calendar.monthrange(y, m)[1]`). -/
def monthLength (y m : Nat) : Nat :=
  match m with
  | 1 => 31 | 2 => if isLeap y then 29 else 28 | 3 => 31 | 4 => 30
  | 5 => 31 | 6 => 30 | 7 => 31 | 8 => 31 | 9 => 30 | 10 => 31
  | 11 => 30 | 12 => 31 | _ => 0

/-- The `calendar.monthrange`-style validity the source checks before
returning a month/day rule result. -/
def validDate (d : Date) : Prop :=
  1 ≤ d.month ∧ d.month ≤ 12 ∧ 1 ≤ d.day ∧ d.day ≤ monthLength d.year d.month

instance (d : Date) : Decidable (validDate d) := by
  unfold validDate; infer_instance

/-- Successor day (`timedelta(days=1)`). -/
def nextDay (d : Date) : Date :=
  if d.day < monthLength d.year d.month then ⟨d.year, d.month, d.day + 1⟩
  else if d.month < 12 then ⟨d.year, d.month + 1, 1⟩
  else ⟨d.year + 1, 1, 1⟩

/-- `today + timedelta(days=k)`. -/
def addDays (d : Date) : Nat → Date
  | 0 => d
  | k + 1 => nextDay (addDays d k)

/-- Days strictly before month `m` in year `y`. -/
def daysBeforeMonth (y m : Nat) : Nat :=
  (match m with
   | 1 => 0 | 2 => 31 | 3 => 59 | 4 => 90 | 5 => 120 | 6 => 151
   | 7 => 181 | 8 => 212 | 9 => 243 | 10 => 273 | 11 => 304 | 12 => 334
   | _ => 0) +
  (if 3 ≤ m ∧ isLeap y then 1 else 0)

/-- Leap years strictly before year `y` (for `y ≥ 1`). -/
def leapsBefore (y : Nat) : Nat := ((y - 1) / 4 + (y - 1) / 400) - (y - 1) / 100

/-- Day count in the proleptic Gregorian calendar; `rataDie ⟨1,1,1⟩ = 1`. -/
def rataDie (d : Date) : Nat :=
  365 * (d.year - 1) + leapsBefore d.year + daysBeforeMonth d.year d.month + d.day

/-- `datetime.weekday()`: Monday = 0.  January 1 of year 1 was a Monday. -/
def weekdayOf (d : Date) : Nat := (rataDie d + 6) % 7

theorem monthLength_pos {y m : Nat} (h1 : 1 ≤ m) (h2 : m ≤ 12) :
    1 ≤ monthLength y m := by
  interval_cases m <;> simp [monthLength] <;> split <;> omega

theorem nextDay_valid {d : Date} (h : validDate d) : validDate (nextDay d) := by
  obtain ⟨h1, h2, h3, h4⟩ := h
  unfold nextDay
  by_cases hd : d.day < monthLength d.year d.month
  · simp only [if_pos hd]
    refine ⟨h1, h2, ?_, ?_⟩
    · show 1 ≤ d.day + 1
      omega
    · show d.day + 1 ≤ monthLength d.year d.month
      omega
  · simp only [if_neg hd]
    by_cases hm : d.month < 12
    · simp only [if_pos hm]
      refine ⟨?_, ?_, le_refl 1, ?_⟩
      · show 1 ≤ d.month + 1
        omega
      · show d.month + 1 ≤ 12
        omega
      · show 1 ≤ monthLength d.year (d.month + 1)
        exact monthLength_pos (by omega) (by omega)
    · simp only [if_neg hm]
      refine ⟨le_refl 1, by norm_num, le_refl 1, ?_⟩
      show 1 ≤ monthLength (d.year + 1) 1
      exact monthLength_pos (le_refl 1) (by norm_num)

theorem addDays_valid {d : Date} (h : validDate d) (k : Nat) :
    validDate (addDays d k) := by
  induction k with
  | zero => exact h
  | succ n ih => exact nextDay_valid ih

theorem nextDay_year_ge {d : Date} : d.year ≤ (nextDay d).year := by
  unfold nextDay
  split
  · exact le_refl _
  · split <;> simp <;> omega

theorem daysBeforeMonth_succ {y m : Nat} (h1 : 1 ≤ m) (h2 : m ≤ 11) :
    daysBeforeMonth y (m + 1) = daysBeforeMonth y m + monthLength y m := by
  interval_cases m <;>
    simp only [daysBeforeMonth, monthLength] <;>
    rcases h : isLeap y <;> simp [h] <;> omega

theorem leapsBefore_succ {y : Nat} (hy : 1 ≤ y) :
    leapsBefore (y + 1) = leapsBefore y + (if isLeap y then 1 else 0) := by
  unfold leapsBefore isLeap
  simp only [Nat.add_sub_cancel]
  by_cases h4 : y % 4 = 0 <;> by_cases h100 : y % 100 = 0 <;>
    by_cases h400 : y % 400 = 0 <;> simp [h4, h100, h400] <;> omega

theorem rataDie_nextDay {d : Date} (h : validDate d) (hy : 1 ≤ d.year) :
    rataDie (nextDay d) = rataDie d + 1 := by
  obtain ⟨h1, h2, h3, h4⟩ := h
  unfold nextDay
  by_cases hd : d.day < monthLength d.year d.month
  · simp only [if_pos hd, rataDie]
    omega
  · simp only [if_neg hd]
    have hday : d.day = monthLength d.year d.month := by omega
    by_cases hm : d.month < 12
    · simp only [if_pos hm, rataDie]
      have := daysBeforeMonth_succ (y := d.year) h1 (by omega)
      omega
    · simp only [if_neg hm]
      have hm12 : d.month = 12 := by omega
      have hlen : monthLength d.year d.month = 31 := by rw [hm12]; rfl
      have hb1 : daysBeforeMonth (d.year + 1) 1 = 0 := by
        norm_num [daysBeforeMonth]
      have hls := leapsBefore_succ (y := d.year) hy
      have hb12 : daysBeforeMonth d.year d.month =
          334 + (if isLeap d.year then 1 else 0) := by
        rw [hm12]; unfold daysBeforeMonth; norm_num
      unfold rataDie
      by_cases hL : isLeap d.year <;>
        simp [hL] at hls hb12 ⊢ <;> omega

theorem addDays_year_ge (d : Date) (k : Nat) : d.year ≤ (addDays d k).year := by
  induction k with
  | zero => exact le_refl _
  | succ n ih => exact le_trans ih nextDay_year_ge

theorem rataDie_addDays {d : Date} (h : validDate d) (hy : 1 ≤ d.year) (k : Nat) :
    rataDie (addDays d k) = rataDie d + k := by
  induction k with
  | zero => rfl
  | succ n ih =>
    have hv : validDate (addDays d n) := addDays_valid h n
    have hy' : 1 ≤ (addDays d n).year := le_trans hy (addDays_year_ge d n)
    calc rataDie (addDays d (n + 1)) = rataDie (addDays d n) + 1 :=
          rataDie_nextDay hv hy'
      _ = rataDie d + (n + 1) := by omega

theorem weekdayOf_addDays {d : Date} (h : validDate d) (hy : 1 ≤ d.year) (k : Nat) :
    weekdayOf (addDays d k) = (weekdayOf d + k) % 7 := by
  unfold weekdayOf
  rw [rataDie_addDays h hy k]
  omega

theorem weekdayOf_lt (d : Date) : weekdayOf d < 7 := by
  unfold weekdayOf; omega

/-- `days_until` computation of the bare-weekday / "next weekday" rules:
`(day_num - today.weekday()) % 7`, then `7` instead of `0`. -/
def daysUntil (today : Date) (w : Nat) : Nat :=
  if (w + 7 - weekdayOf today) % 7 = 0 then 7
  else (w + 7 - weekdayOf today) % 7

theorem daysUntil_pos (today : Date) (w : Nat) : 1 ≤ daysUntil today w := by
  unfold daysUntil
  split <;> omega

theorem daysUntil_le (today : Date) (w : Nat) : daysUntil today w ≤ 7 := by
  unfold daysUntil
  split <;> omega

theorem weekdayOf_daysUntil {today : Date} {w : Nat}
    (h : validDate today) (hy : 1 ≤ today.year) (hw : w < 7) :
    weekdayOf (addDays today (daysUntil today w)) = w := by
  rw [weekdayOf_addDays h hy]
  have h7 := weekdayOf_lt today
  unfold daysUntil
  split <;> omega

/-- `strftime("%Y-%m-%d")`. -/
def formatS (d : Date) : Chars :=
  pad4 d.year ++ '-' :: pad2 d.month ++ '-' :: pad2 d.day

/-- `f"{year}-{month:02d}-{day:02d}"` (year rendered without padding). -/
def formatF (d : Date) : Chars :=
  natReprS d.year ++ '-' :: pad2 d.month ++ '-' :: pad2 d.day

/-! ## Deterministic models of the source's `re.search` calls -/

/-- Captures of the time sub-pattern `(\d+):?(\d*)\s*(AM|PM|am|pm)`. -/
structure TimeCap where
  hourStr : Chars
  minStr : Chars
  isPM : Bool
deriving DecidableEq

/-- `(AM|PM|am|pm)` with `re.IGNORECASE`, anchored; `group.upper()` folded in. -/
def meridAt : Chars → Option Bool
  | c1 :: c2 :: _ =>
    if (c1 = 'a' || c1 = 'A') && (c2 = 'm' || c2 = 'M') then some false
    else if (c1 = 'p' || c1 = 'P') && (c2 = 'm' || c2 = 'M') then some true
    else none
  | _ => none

/-- Anchored `(\d+):?(\d*)\s*(AM|PM|am|pm)`. -/
def timeMatchAt (s : Chars) : Option TimeCap :=
  let hr := spanP Char.isDigit s
  if hr.1.isEmpty then none
  else
    let r2 := match hr.2 with
      | ':' :: t => t
      | r => r
    let mr := spanP Char.isDigit r2
    let r4 := mr.2.dropWhile isPySpace
    match meridAt r4 with
    | some pm => some ⟨hr.1, mr.1, pm⟩
    | none => none

def timeSearch (prompt : Chars) : Option TimeCap := scanOpt timeMatchAt prompt

/-- Lazy gap `.*?` (cannot cross a newline) followed by the time sub-pattern:
first anchored time match at or after the current position. -/
def lazyFindTime : Chars → Option TimeCap
  | [] => none
  | s@(c :: rest) =>
    match timeMatchAt s with
    | some t => some t
    | none => if c = '\n' then none else lazyFindTime rest

/-- Greedy `(\w+)` followed by `.*?<time>`: try splitting the word run `w`
(rest of the input is `rest`) at every length, longest first, exactly as the
backtracking engine does. -/
def personSearch (w rest : Chars) : Nat → Option (Chars × TimeCap)
  | 0 => none
  | k + 1 =>
    match lazyFindTime (w.drop (k + 1) ++ rest) with
    | some t => some (w.take (k + 1), t)
    | none => personSearch w rest k

/-- Anchored `lunch with (\w+).*?<time>` (case-insensitive). -/
def lunchMatchAt (s : Chars) : Option (Chars × TimeCap) :=
  match litCI (str "lunch with ") s with
  | none => none
  | some r =>
    let wr := spanP isWordChar r
    if wr.1.isEmpty then none
    else personSearch wr.1 wr.2 wr.1.length

def lunchSearch (prompt : Chars) : Option (Chars × TimeCap) :=
  scanOpt lunchMatchAt prompt

/-- Anchored `gym.*?<time>` (case-insensitive). -/
def gymMatchAt (s : Chars) : Option TimeCap :=
  match litCI (str "gym") s with
  | none => none
  | some r => lazyFindTime r

def gymSearch (prompt : Chars) : Option TimeCap := scanOpt gymMatchAt prompt

/-- Anchored `class\s+(\w+).*?<time>` (case-insensitive). -/
def classMatchAt (s : Chars) : Option (Chars × TimeCap) :=
  match litCI (str "class") s with
  | none => none
  | some r =>
    let sp := spanP isPySpace r
    if sp.1.isEmpty then none
    else
      let wr := spanP isWordChar sp.2
      if wr.1.isEmpty then none
      else personSearch wr.1 wr.2 wr.1.length

def classSearch (prompt : Chars) : Option (Chars × TimeCap) :=
  scanOpt classMatchAt prompt

/-- `\s+(?:with)?\s*(\w+).*?<time>` continuation of the meeting pattern.
The `(?:with)?` branch is tried greedily first; on failure the engine
backtracks to the empty alternative (where `\s*` is necessarily empty since
`\s+` was greedy). -/
def meetCore (r : Chars) : Option (Chars × TimeCap) :=
  let sp := spanP isPySpace r
  if sp.1.isEmpty then none
  else
    let withBranch :=
      match litCI (str "with") sp.2 with
      | some r2 =>
        let sp2 := spanP isPySpace r2
        let wr := spanP isWordChar sp2.2
        if wr.1.isEmpty then none else personSearch wr.1 wr.2 wr.1.length
      | none => none
    match withBranch with
    | some x => some x
    | none =>
      let wr := spanP isWordChar sp.2
      if wr.1.isEmpty then none else personSearch wr.1 wr.2 wr.1.length

/-- Anchored `meet(?:ing)?\s+(?:with)?\s*(\w+).*?<time>` (case-insensitive). -/
def meetingMatchAt (s : Chars) : Option (Chars × TimeCap) :=
  match litCI (str "meet") s with
  | none => none
  | some r =>
    match litCI (str "ing") r with
    | some r2 =>
      match meetCore r2 with
      | some x => some x
      | none => meetCore r
    | none => meetCore r

def meetingSearch (prompt : Chars) : Option (Chars × TimeCap) :=
  scanOpt meetingMatchAt prompt

/-- Alternatives of `(appointment|doctor|dentist|interview)`, in order. -/
def appointAlts : List Chars :=
  [str "appointment", str "doctor", str "dentist", str "interview"]

def appointTry (s : Chars) : List Chars → Option (Chars × TimeCap)
  | [] => none
  | alt :: rest =>
    match litCI alt s with
    | some r =>
      match lazyFindTime r with
      | some t => some (s.take alt.length, t)
      | none => appointTry s rest
    | none => appointTry s rest

/-- Anchored `(appointment|doctor|dentist|interview).*?<time>`;
the capture keeps the original case of the matched trigger word. -/
def appointMatchAt (s : Chars) : Option (Chars × TimeCap) := appointTry s appointAlts

def appointSearch (prompt : Chars) : Option (Chars × TimeCap) :=
  scanOpt appointMatchAt prompt

/-- `str.capitalize()`. -/
def capitalizeStr : Chars → Chars
  | [] => []
  | c :: r => c.toUpper :: r.map Char.toLower

/-- Anchored `for\s+(\d+)\s+hour` (case-insensitive), returning `int(group(1))`. -/
def durationMatchAt (s : Chars) : Option Nat :=
  match litCI (str "for") s with
  | none => none
  | some r =>
    let sp := spanP isPySpace r
    if sp.1.isEmpty then none
    else
      let dg := spanP Char.isDigit sp.2
      if dg.1.isEmpty then none
      else
        let sp2 := spanP isPySpace dg.2
        if sp2.1.isEmpty then none
        else
          match litCI (str "hour") sp2.2 with
          | some _ => some (digitsVal dg.1)
          | none => none

def durationSearch (prompt : Chars) : Option Nat := scanOpt durationMatchAt prompt

/-- Unit alternatives of `(hour|hr|minute|min)s?`, with an is-hours flag. -/
def durUnitAlts : List (Chars × Bool) :=
  [(str "hour", true), (str "hr", true), (str "minute", false), (str "min", false)]

def durGTry (s : Chars) : List (Chars × Bool) → Option Bool
  | [] => none
  | (alt, isHour) :: rest =>
    match litCI alt s with
    | some _ => some isHour
    | none => durGTry s rest

/-- Anchored `for\s+(\d+)\s+(hour|hr|minute|min)s?` (case-insensitive),
returning the duration in minutes as the geminiy fallback computes it. -/
def durationGMatchAt (s : Chars) : Option Nat :=
  match litCI (str "for") s with
  | none => none
  | some r =>
    let sp := spanP isPySpace r
    if sp.1.isEmpty then none
    else
      let dg := spanP Char.isDigit sp.2
      if dg.1.isEmpty then none
      else
        let sp2 := spanP isPySpace dg.2
        if sp2.1.isEmpty then none
        else
          match durGTry sp2.2 durUnitAlts with
          | some isHour =>
            some (if isHour then digitsVal dg.1 * 60 else digitsVal dg.1)
          | none => none

def durationSearchG (prompt : Chars) : Option Nat := scanOpt durationGMatchAt prompt

/-- The `days_of_week` dictionary, in insertion (= iteration) order. -/
def weekdayKeys : List (Chars × Nat) :=
  [(str "monday", 0), (str "mon", 0), (str "tuesday", 1), (str "tue", 1),
   (str "tues", 1), (str "wednesday", 2), (str "wed", 2), (str "thursday", 3),
   (str "thu", 3), (str "thurs", 3), (str "friday", 4), (str "fri", 4),
   (str "saturday", 5), (str "sat", 5), (str "sunday", 6), (str "sun", 6)]

/-- The bare-weekday loop: first dictionary key occurring as a substring. -/
def keyScan : List (Chars × Nat) → Chars → Option Nat
  | [], _ => none
  | (k, n) :: rest, pl => if containsSub k pl then some n else keyScan rest pl

def weekdayScan (pl : Chars) : Option Nat := keyScan weekdayKeys pl

/-- Alternatives of the `next\s+(monday|...|sun)` pattern, in regex order. -/
def nextDayAlts : List (Chars × Nat) :=
  [(str "monday", 0), (str "tuesday", 1), (str "wednesday", 2),
   (str "thursday", 3), (str "friday", 4), (str "saturday", 5),
   (str "sunday", 6), (str "mon", 0), (str "tue", 1), (str "wed", 2),
   (str "thu", 3), (str "fri", 4), (str "sat", 5), (str "sun", 6)]

def altTry (s : Chars) : List (Chars × Nat) → Option Nat
  | [] => none
  | (alt, n) :: rest =>
    match litPlain alt s with
    | some _ => some n
    | none => altTry s rest

/-- Anchored `next\s+(monday|...|sun)` on the lowercased prompt. -/
def nextDayMatchAt (s : Chars) : Option Nat :=
  match litPlain (str "next") s with
  | none => none
  | some r =>
    let sp := spanP isPySpace r
    if sp.1.isEmpty then none else altTry sp.2 nextDayAlts

def nextDaySearch (pl : Chars) : Option Nat := scanOpt nextDayMatchAt pl

/-- The `month_names` dictionary, in insertion (= iteration) order. -/
def monthKeys : List (Chars × Nat) :=
  [(str "january", 1), (str "jan", 1), (str "february", 2), (str "feb", 2),
   (str "march", 3), (str "mar", 3), (str "april", 4), (str "apr", 4),
   (str "may", 5), (str "june", 6), (str "jun", 6), (str "july", 7),
   (str "jul", 7), (str "august", 8), (str "aug", 8), (str "september", 9),
   (str "sep", 9), (str "sept", 9), (str "october", 10), (str "oct", 10),
   (str "november", 11), (str "nov", 11), (str "december", 12), (str "dec", 12)]

/-- Anchored `<month-name>\s+(\d+)(?:st|nd|rd|th)?` on the lowercased prompt,
returning the digit run of `group(1)`. -/
def monthMatchAt (name : Chars) (s : Chars) : Option Chars :=
  match litPlain name s with
  | none => none
  | some r =>
    let sp := spanP isPySpace r
    if sp.1.isEmpty then none
    else
      let dg := spanP Char.isDigit sp.2
      if dg.1.isEmpty then none else some dg.1

def monthRegexSearch (name pl : Chars) : Option Chars :=
  scanOpt (monthMatchAt name) pl

def sepChar (c : Char) : Bool := c = '/' || c = '-'

/-- Captures of the numeric month/day pattern `(\d{1,2}) sep (\d{1,2})`
with an optional ` sep (\d{2,4})` year, where `sep` is a slash or a dash. -/
structure MMDDCap where
  monthStr : Chars
  dayStr : Chars
  yearStr : Option Chars
deriving DecidableEq

/-- Anchored match of the numeric month/day pattern, reproducing the
backtracking engine's greedy/optional behaviour on this pattern shape. -/
def mmddMatchAt (s : Chars) : Option MMDDCap :=
  let r1 := spanP Char.isDigit s
  if r1.1.isEmpty then none
  else if r1.1.length > 2 then none
  else
    match r1.2 with
    | c :: rest2 =>
      if sepChar c then
        let r2 := spanP Char.isDigit rest2
        if r2.1.isEmpty then none
        else
          let dayStr := r2.1.take 2
          if r2.1.length ≥ 3 then some ⟨r1.1, dayStr, none⟩
          else
            match r2.2 with
            | c2 :: rest4 =>
              if sepChar c2 then
                let r3 := spanP Char.isDigit rest4
                if r3.1.length ≥ 2 then some ⟨r1.1, dayStr, some (r3.1.take 4)⟩
                else some ⟨r1.1, dayStr, none⟩
              else some ⟨r1.1, dayStr, none⟩
            | [] => some ⟨r1.1, dayStr, none⟩
      else none
    | [] => none

/-- Captures of the ISO-style pattern `(\d{4}) sep (\d{1,2}) sep (\d{1,2})`. -/
structure ISOCap where
  yearStr : Chars
  monthStr : Chars
  dayStr : Chars
deriving DecidableEq

/-- Anchored match of the ISO-style date pattern. -/
def isoMatchAt (s : Chars) : Option ISOCap :=
  let r1 := spanP Char.isDigit s
  if r1.1.length ≠ 4 then none
  else
    match r1.2 with
    | c :: rest2 =>
      if sepChar c then
        let r2 := spanP Char.isDigit rest2
        if r2.1.isEmpty ∨ r2.1.length ≥ 3 then none
        else
          match r2.2 with
          | c2 :: rest4 =>
            if sepChar c2 then
              let r3 := spanP Char.isDigit rest4
              if r3.1.isEmpty then none
              else some ⟨r1.1, r2.1, r3.1.take 2⟩
            else none
          | [] => none
      else none
    | [] => none

/-! ## The source functions -/

/-- Month/day rule body: the `for month_name, month_num in month_names.items()`
loop of `parse_date_from_prompt`.  A regex match whose day fails the
`calendar.monthrange` validation falls through to the next month name. -/
def monthGo (today : Date) (pl : Chars) : List (Chars × Nat) → Option Chars
  | [] => none
  | (name, num) :: rest =>
    match monthRegexSearch name pl with
    | some dg =>
      let day := digitsVal dg
      let year :=
        if num < today.month ∨ (num = today.month ∧ day < today.day)
        then today.year + 1 else today.year
      if 1 ≤ day ∧ day ≤ monthLength year num
      then some (formatF ⟨year, num, day⟩)
      else monthGo today pl rest
    | none => monthGo today pl rest

def monthScan (pl : Chars) (today : Date) : Option Chars := monthGo today pl monthKeys

/-- Numeric month/day rule of `parse_date_from_prompt` (searches the original,
non-lowercased prompt). -/
def mmddResolve (prompt : Chars) (today : Date) : Option Chars :=
  match scanOpt mmddMatchAt prompt with
  | none => none
  | some cap =>
    let month := digitsVal cap.monthStr
    let day := digitsVal cap.dayStr
    let year :=
      match cap.yearStr with
      | none => today.year
      | some ys => if ys.length = 2 then 2000 + digitsVal ys else digitsVal ys
    if 1 ≤ month ∧ month ≤ 12 then
      if 1 ≤ day ∧ day ≤ monthLength year month
      then some (formatF ⟨year, month, day⟩)
      else none
    else none

/-- ISO-style rule of `parse_date_from_prompt`. -/
def isoResolve (prompt : Chars) : Option Chars :=
  match scanOpt isoMatchAt prompt with
  | none => none
  | some cap =>
    let year := digitsVal cap.yearStr
    let month := digitsVal cap.monthStr
    let day := digitsVal cap.dayStr
    if 1 ≤ month ∧ month ≤ 12 then
      if 1 ≤ day ∧ day ≤ monthLength year month
      then some (formatF ⟨year, month, day⟩)
      else none
    else none

/-- `parse_date_from_prompt` (identical in all three modules), with the
ambient `datetime.now()` passed explicitly as `today`. -/
def parse_date_from_prompt (prompt : Chars) (today : Date) : Chars :=
  let pl := toLowerStr prompt
  if containsSub (str "today") pl then formatS today
  else if containsSub (str "tomorrow") pl then formatS (addDays today 1)
  else if containsSub (str "next week") pl then formatS (addDays today 7)
  else
    match weekdayScan pl with
    | some w => formatS (addDays today (daysUntil today w))
    | none =>
      match nextDaySearch pl with
      | some w => formatS (addDays today (daysUntil today w + 7))
      | none =>
        match monthScan pl today with
        | some s => s
        | none =>
          match mmddResolve prompt today with
          | some s => s
          | none =>
            match isoResolve prompt with
            | some s => s
            | none => formatS (addDays today 1)

/-- `group(3).upper()` of the meridiem capture. -/
def ampmStr (pm : Bool) : Chars := if pm then str "PM" else str "AM"

/-- `start_min = match.group(k) or "00"`. -/
def minuteStrOf (cap : TimeCap) : Chars :=
  if cap.minStr.isEmpty then str "00" else cap.minStr

/-- `f"{start_hour}:{start_min.zfill(2)} {start_ampm}"`. -/
def renderStartDP (cap : TimeCap) : Chars :=
  natReprS (digitsVal cap.hourStr) ++ ':' :: zfill2 (minuteStrOf cap) ++
    ' ' :: ampmStr cap.isPM

/-- The 12-hour-to-24-hour conversion step shared verbatim by
`calculate_end_time`, `calculate_end_time_from_12h` and
`convert_analysis_to_tasks`:
`if period == "PM" and hours < 12: hours += 12 elif period == "AM" and
hours == 12: hours = 0`. -/
def to24 (h0 : Int) (period : Chars) : Int :=
  if period = str "PM" ∧ h0 < 12 then h0 + 12
  else if period = str "AM" ∧ h0 = 12 then 0
  else h0

/-- The 24-hour-to-12-hour rendering step shared verbatim by the same three
functions: PM for hour ≥ 12 (subtracting 12 above 12), AM below (0 becomes
12), hour unpadded, minute rendered `%02d`. -/
def render12 (e mm : Int) : Chars :=
  if e ≥ 12 then
    (if e > 12 then intReprS (e - 12) else intReprS e) ++
      ':' :: pad2Int mm ++ ' ' :: str "PM"
  else
    (if e = 0 then intReprS 12 else intReprS e) ++
      ':' :: pad2Int mm ++ ' ' :: str "AM"

/-- `calculate_end_time` (identical in all three modules). -/
def calculate_end_time (start_hour start_min : Int) (start_ampm : Chars)
    (duration_hours : Int) : Chars :=
  render12 (to24 start_hour start_ampm + duration_hours) start_min

/-- The `Task` record of the source (named `SchedTask` here because `Task`
is taken by the Lean core library). -/
structure SchedTask where
  name : Chars
  start_time : Chars
  end_time : Chars
  date : Chars
deriving DecidableEq

/-- One `tasks.append(...)` guarded by `if <pattern>_match:`. -/
def taskListOf {α : Type} (o : Option α) (f : α → SchedTask) : List SchedTask :=
  match o with
  | some x => [f x]
  | none => []

/-- Task built from an activity-pattern match. -/
def mkPatternTask (nm : Chars) (cap : TimeCap) (dur : Nat) (dateStr : Chars) :
    SchedTask :=
  { name := nm
  , start_time := renderStartDP cap
  , end_time := calculate_end_time (digitsVal cap.hourStr)
      (digitsVal (minuteStrOf cap)) (ampmStr cap.isPM) (dur : Int)
  , date := dateStr }

/-- The generic fallback task of `parse_tasks_directly`. -/
def genericTask (prompt dateStr : Chars) (dur : Nat) : SchedTask :=
  match timeSearch prompt with
  | some cap =>
    { name := joinWords ((splitWs prompt).take 5)
    , start_time := renderStartDP cap
    , end_time := calculate_end_time (digitsVal cap.hourStr)
        (digitsVal (minuteStrOf cap)) (ampmStr cap.isPM) (dur : Int)
    , date := dateStr }
  | none =>
    { name := joinWords ((splitWs prompt).take 5)
    , start_time := str "12:00 PM"
    , end_time := str "1:00 PM"
    , date := dateStr }

/-- `parse_tasks_directly` as in `main.py` / `main_gemini.py`
(four activity patterns, then the generic fallback). -/
def parse_tasks_directly (prompt : Chars) (today : Date) : List SchedTask :=
  let dateStr := parse_date_from_prompt prompt today
  let dur : Nat := (durationSearch prompt).getD 1
  let ts :=
    taskListOf (lunchSearch prompt)
      (fun pc => mkPatternTask (str "Lunch with " ++ pc.1) pc.2 dur dateStr) ++
    taskListOf (gymSearch prompt)
      (fun cap => mkPatternTask (str "Gym workout") cap dur dateStr) ++
    taskListOf (classSearch prompt)
      (fun pc => mkPatternTask (str "Class " ++ pc.1) pc.2 dur dateStr) ++
    taskListOf (meetingSearch prompt)
      (fun pc => mkPatternTask (str "Meeting with " ++ pc.1) pc.2 dur dateStr)
  if ts.isEmpty then [genericTask prompt dateStr dur] else ts

/-- `parse_tasks_directly` as in `src/main_geminiy.py` (adds the
appointment pattern). -/
def parse_tasks_directly_g (prompt : Chars) (today : Date) : List SchedTask :=
  let dateStr := parse_date_from_prompt prompt today
  let dur : Nat := (durationSearch prompt).getD 1
  let ts :=
    taskListOf (lunchSearch prompt)
      (fun pc => mkPatternTask (str "Lunch with " ++ pc.1) pc.2 dur dateStr) ++
    taskListOf (gymSearch prompt)
      (fun cap => mkPatternTask (str "Gym workout") cap dur dateStr) ++
    taskListOf (classSearch prompt)
      (fun pc => mkPatternTask (str "Class " ++ pc.1) pc.2 dur dateStr) ++
    taskListOf (meetingSearch prompt)
      (fun pc => mkPatternTask (str "Meeting with " ++ pc.1) pc.2 dur dateStr) ++
    taskListOf (appointSearch prompt)
      (fun pc =>
        mkPatternTask (capitalizeStr pc.1 ++ str " appointment") pc.2 dur dateStr)
  if ts.isEmpty then [genericTask prompt dateStr dur] else ts

/-! ## End-time calculator (minute granularity) and the analyzer path -/

/-- The parse stage of `calculate_end_time_from_12h`:
`time_parts = s.split()`, `hours, minutes = map(int, time_parts[0].split(':'))`.
`none` models a raised `IndexError`/`ValueError`. -/
def parse12h (s : Chars) : Option (Int × Int × Chars) :=
  match splitWs s with
  | t :: period :: _ =>
    match splitColon t with
    | [a, b] =>
      match parseIntPy a, parseIntPy b with
      | some h, some m => some (h, m, period)
      | _, _ => none
    | _ => none
  | _ => none

/-- Body of `calculate_end_time_from_12h`; the duration is `Option Int`
because the callers can pass a JSON `null` (`none`), which raises a
`TypeError` at `+ duration_minutes` — also modelled by result `none`. -/
def calc12hCore (s : Chars) (dur : Option Int) : Option Chars :=
  match parse12h s with
  | none => none
  | some (h0, m, period) =>
    match dur with
    | none => none
    | some d =>
      let tot := to24 h0 period * 60 + m + d
      some (render12 (tot / 60) (tot % 60))

/-- `calculate_end_time_from_12h` of `main_gemini.py`: no `try`, so a parse
failure (or `None` duration) raises — result `none`. -/
def calculate_end_time_from_12h (s : Chars) (dur : Option Int) : Option Chars :=
  calc12hCore s dur

/-- `calculate_end_time_from_12h` of `src/main_geminiy.py`: the whole body is
wrapped in `try/except` and the `except` returns `start_time_str` unchanged. -/
def calculate_end_time_from_12h_g (s : Chars) (dur : Option Int) : Chars :=
  (calc12hCore s dur).getD s

/-- The analyzer's output dictionary (`ExternalHint` plus the `success` flag).
`duration = none` models an absent key (so `dict.get("duration", 60)` yields
60); `duration = some none` models an explicit JSON `null`. -/
structure Analysis where
  success : Bool
  event_name : Option Chars
  date : Option Chars
  start_time : Option Chars
  duration : Option (Option Int)
deriving DecidableEq

/-- Python truthiness of an optional string field. -/
def truthyS : Option Chars → Bool
  | some s => !s.isEmpty
  | none => false

/-- The 24-hour-to-12-hour conversion attempted on the hint's `start_time`
(`hours, minutes = map(int, analysis["start_time"].split(":"))` …);
`none` models the raised exception caught by the surrounding `try`. -/
def convert24 (st : Chars) : Option Chars :=
  match splitColon st with
  | [a, b] =>
    match parseIntPy a, parseIntPy b with
    | some h, some m => some (render12 h m)
    | _, _ => none
  | _ => none

/-- Time extracted from the original prompt inside `convert_analysis_to_tasks`:
`f"{hours}:{minutes} {period}"` with the raw capture strings (no `zfill`). -/
def promptTimeRaw (prompt : Chars) : Chars :=
  match timeSearch prompt with
  | some cap =>
    cap.hourStr ++ ':' :: (if cap.minStr.isEmpty then str "00" else cap.minStr) ++
      ' ' :: ampmStr cap.isPM
  | none => str "12:00 PM"

/-- The shared start-time resolution of both `convert_analysis_to_tasks`
variants. -/
def startTimeResolve (a : Analysis) (prompt : Chars) : Chars :=
  match a.start_time with
  | some st =>
    if st.isEmpty then promptTimeRaw prompt
    else
      match convert24 st with
      | some s => s
      | none => promptTimeRaw prompt
  | none => promptTimeRaw prompt

/-- `analysis.get("duration", 60)`. -/
def durationGet (a : Analysis) : Option Int :=
  match a.duration with
  | none => some 60
  | some d => d

/-- `convert_analysis_to_tasks` of `main_gemini.py`.  It requires BOTH
`event_name` and `date` to be truthy; `none` models an exception escaping
(raised inside `calculate_end_time_from_12h`). -/
def convert_analysis_to_tasks (a : Analysis) (prompt : Chars) :
    Option (List SchedTask) :=
  match a.event_name, a.date with
  | some en, some dt =>
    if en.isEmpty ∨ dt.isEmpty then some []
    else
      let start := startTimeResolve a prompt
      match calculate_end_time_from_12h start (durationGet a) with
      | some e => some [⟨en, start, e, dt⟩]
      | none => none
  | _, _ => some []

/-- `convert_analysis_to_tasks` of `src/main_geminiy.py`.  Only `event_name`
is required; a missing or empty `date` is resolved by running
`parse_date_from_prompt` on the original prompt; every internal error is
caught, so the function is total. -/
def convert_analysis_to_tasks_g (a : Analysis) (prompt : Chars) (today : Date) :
    List SchedTask :=
  match a.event_name with
  | none => []
  | some en =>
    if en.isEmpty then []
    else
      let dt :=
        match a.date with
        | some d => if d.isEmpty then parse_date_from_prompt prompt today else d
        | none => parse_date_from_prompt prompt today
      let start := startTimeResolve a prompt
      let e := calculate_end_time_from_12h_g start (durationGet a)
      [⟨en, start, e, dt⟩]

/-- `_fallback_extraction` of `src/main_geminiy.py`. -/
def fallback_extraction (message : Chars) (today : Date) : Analysis :=
  { success := true
  , event_name :=
      (if (splitWs message).isEmpty then none
       else some (joinWords ((splitWs message).take 5)))
  , date := some (parse_date_from_prompt message today)
  , start_time :=
      match timeSearch message with
      | some cap =>
        let hv := digitsVal cap.hourStr
        let hv24 :=
          if cap.isPM ∧ hv < 12 then hv + 12
          else if ¬cap.isPM ∧ hv = 12 then 0 else hv
        some (pad2 hv24 ++ ':' ::
          (if cap.minStr.isEmpty then str "00" else cap.minStr))
      | none => none
  , duration := some (some ((durationSearchG message).getD 60 : Int)) }

/-- `analyze_message` of `src/main_geminiy.py`.  `avail` is the
`GEMINI_AVAILABLE and self.model is not None` flag; `attempts i` is the
outcome of the `i`-th `generate_content` call (`none` = it raised);
`parseResp` is `_parse_gemini_response` (an external-JSON boundary, passed as
a parameter).  The loop retries up to 3 attempts and the outer `except`
converts total failure into `_fallback_extraction`. -/
def analyze_message (avail : Bool) (attempts : Nat → Option Chars)
    (parseResp : Chars → Analysis) (message : Chars) (today : Date) : Analysis :=
  if ¬avail then fallback_extraction message today
  else
    match attempts 0 with
    | some r => parseResp r
    | none =>
      match attempts 1 with
      | some r => parseResp r
      | none =>
        match attempts 2 with
        | some r => parseResp r
        | none => fallback_extraction message today

/-- The `schedule` endpoint of `src/main_geminiy.py`. -/
def schedule_g (avail : Bool) (attempts : Nat → Option Chars)
    (parseResp : Chars → Analysis) (prompt : Chars) (today : Date) :
    List SchedTask :=
  if avail then
    let a := analyze_message avail attempts parseResp prompt today
    if a.success then
      let ts := convert_analysis_to_tasks_g a prompt today
      if ts.isEmpty then parse_tasks_directly_g prompt today else ts
    else parse_tasks_directly_g prompt today
  else parse_tasks_directly_g prompt today

/-- `analyze_message` of `main_gemini.py`: a single attempt, an exception
yields the `success = False` dictionary. -/
def analyze_message_gm (attempt : Option Chars) (parseResp : Chars → Analysis) :
    Analysis :=
  match attempt with
  | some r => parseResp r
  | none => ⟨false, none, none, none, some none⟩

/-- The `schedule` endpoint of `main_gemini.py`: any exception escaping the
analyzer path (modelled by `convert_analysis_to_tasks = none`) falls back to
direct parsing. -/
def schedule_gm (attempt : Option Chars) (parseResp : Chars → Analysis)
    (prompt : Chars) (today : Date) : List SchedTask :=
  let a := analyze_message_gm attempt parseResp
  if a.success then
    match convert_analysis_to_tasks a prompt with
    | some ts => if ts.isEmpty then parse_tasks_directly prompt today else ts
    | none => parse_tasks_directly prompt today
  else parse_tasks_directly prompt today

/-! ## String lemmas -/

theorem dropWhile_eq_self {p : Char → Bool} {s : Chars}
    (h : ∀ c ∈ s, p c = false) : s.dropWhile p = s := by
  cases s with
  | nil => rfl
  | cons c r =>
    have hc := h c (by simp)
    simp [List.dropWhile, hc]

theorem splitWsAux_nil (acc : Chars) :
    splitWsAux acc [] = if acc.isEmpty then [] else [acc.reverse] := rfl

theorem splitWsAux_cons (acc : Chars) (c : Char) (r : Chars) :
    splitWsAux acc (c :: r) =
      if isPySpace c then
        (if acc.isEmpty then splitWsAux [] r else acc.reverse :: splitWsAux [] r)
      else splitWsAux (c :: acc) r := rfl

theorem splitWsAux_word (w : Chars) (hw : ∀ c ∈ w, isPySpace c = false) :
    ∀ (acc r : Chars), splitWsAux acc (w ++ r) = splitWsAux (w.reverse ++ acc) r := by
  induction w with
  | nil => intro acc r; simp
  | cons c cs ih =>
    intro acc r
    have hc := hw c (by simp)
    show splitWsAux acc (c :: (cs ++ r)) = _
    rw [splitWsAux_cons, if_neg (by simp [hc])]
    rw [ih (fun d hd => hw d (by simp [hd])) (c :: acc) r]
    simp

theorem splitWsAux_final (w : Chars) (hwne : w ≠ [])
    (hw : ∀ c ∈ w, isPySpace c = false) : splitWsAux [] w = [w] := by
  have h := splitWsAux_word w hw [] []
  simp only [List.append_nil] at h
  rw [h, splitWsAux_nil]
  rw [if_neg (by simpa using hwne)]
  simp

theorem splitWs_two {a b : Chars} (ha : a ≠ [])
    (ha2 : ∀ c ∈ a, isPySpace c = false) (hb : b ≠ [])
    (hb2 : ∀ c ∈ b, isPySpace c = false) :
    splitWs (a ++ ' ' :: b) = [a, b] := by
  unfold splitWs
  rw [splitWsAux_word a ha2 [] (' ' :: b)]
  simp only [List.append_nil]
  rw [splitWsAux_cons, if_pos (by decide)]
  rw [if_neg (by simpa using ha)]
  rw [splitWsAux_final b hb hb2]
  simp

theorem splitColonAux_nil (acc : Chars) : splitColonAux acc [] = [acc.reverse] := rfl

theorem splitColonAux_cons (acc : Chars) (c : Char) (r : Chars) :
    splitColonAux acc (c :: r) =
      if c = ':' then acc.reverse :: splitColonAux [] r
      else splitColonAux (c :: acc) r := rfl

theorem splitColonAux_word (w : Chars) (hw : ∀ c ∈ w, c ≠ ':') :
    ∀ (acc r : Chars),
      splitColonAux acc (w ++ r) = splitColonAux (w.reverse ++ acc) r := by
  induction w with
  | nil => intro acc r; simp
  | cons c cs ih =>
    intro acc r
    have hc := hw c (by simp)
    show splitColonAux acc (c :: (cs ++ r)) = _
    rw [splitColonAux_cons, if_neg hc]
    rw [ih (fun d hd => hw d (by simp [hd])) (c :: acc) r]
    simp

theorem splitColonAux_final (w : Chars) (hw : ∀ c ∈ w, c ≠ ':') :
    splitColonAux [] w = [w] := by
  have h := splitColonAux_word w hw [] []
  simp only [List.append_nil] at h
  rw [h, splitColonAux_nil]
  simp

theorem splitColon_two {a b : Chars} (ha : ∀ c ∈ a, c ≠ ':')
    (hb : ∀ c ∈ b, c ≠ ':') : splitColon (a ++ ':' :: b) = [a, b] := by
  unfold splitColon
  rw [splitColonAux_word a ha [] (':' :: b)]
  simp only [List.append_nil]
  rw [splitColonAux_cons, if_pos rfl]
  rw [splitColonAux_final b hb]
  simp

theorem digitsValAux_cons (acc : Nat) (c : Char) (r : Chars) :
    digitsValAux acc (c :: r) = digitsValAux (10 * acc + charVal c) r := rfl

theorem digitsValAux_append (a b : Chars) (acc : Nat) :
    digitsValAux acc (a ++ b) = digitsValAux (digitsValAux acc a) b := by
  induction a generalizing acc with
  | nil => rfl
  | cons c r ih =>
    show digitsValAux acc (c :: (r ++ b)) = _
    rw [digitsValAux_cons, ih, digitsValAux_cons]

theorem digitChar_isDigit {n : Nat} (h : n < 10) : (digitChar n).isDigit = true := by
  interval_cases n <;> decide

theorem charVal_digitChar {n : Nat} (h : n < 10) : charVal (digitChar n) = n := by
  interval_cases n <;> decide

theorem natReprAux_succ (f n : Nat) :
    natReprAux (f + 1) n =
      if n < 10 then [digitChar n]
      else natReprAux f (n / 10) ++ [digitChar (n % 10)] := rfl

theorem natReprAux_ne_nil {f n : Nat} (hf : 0 < f) : natReprAux f n ≠ [] := by
  cases f with
  | zero => omega
  | succ g =>
    rw [natReprAux_succ]
    split <;> simp

theorem natReprS_ne_nil (n : Nat) : natReprS n ≠ [] :=
  natReprAux_ne_nil (by omega)

theorem natReprAux_digits : ∀ (f n : Nat), ∀ c ∈ natReprAux f n, c.isDigit = true := by
  intro f
  induction f with
  | zero => intro n c hc; simp [natReprAux] at hc
  | succ g ih =>
    intro n c hc
    rw [natReprAux_succ] at hc
    by_cases hn : n < 10
    · rw [if_pos hn] at hc
      simp at hc
      exact hc ▸ digitChar_isDigit hn
    · rw [if_neg hn] at hc
      simp only [List.mem_append, List.mem_singleton] at hc
      rcases hc with hc | hc
      · exact ih (n / 10) c hc
      · exact hc ▸ digitChar_isDigit (Nat.mod_lt n (by omega))

theorem natReprS_digits (n : Nat) : ∀ c ∈ natReprS n, c.isDigit = true :=
  natReprAux_digits (n + 1) n

theorem digitsValAux_nil (acc : Nat) : digitsValAux acc [] = acc := rfl

theorem natReprAux_val : ∀ (f n : Nat), n ≤ f → ∀ acc,
    digitsValAux acc (natReprAux (f + 1) n) =
      acc * 10 ^ (natReprAux (f + 1) n).length + n := by
  intro f
  induction f with
  | zero =>
    intro n hn acc
    interval_cases n
    rw [natReprAux_succ, if_pos (show (0 : Nat) < 10 by omega)]
    rw [digitsValAux_cons, digitsValAux_nil,
      charVal_digitChar (show (0 : Nat) < 10 by omega),
      List.length_singleton, pow_one]
    omega
  | succ g ih =>
    intro n hn acc
    by_cases h10 : n < 10
    · rw [natReprAux_succ, if_pos h10]
      rw [digitsValAux_cons, digitsValAux_nil, charVal_digitChar h10,
        List.length_singleton, pow_one]
      omega
    · have hrec : n / 10 ≤ g := by omega
      rw [natReprAux_succ, if_neg h10]
      rw [digitsValAux_append]
      rw [ih (n / 10) hrec acc]
      rw [digitsValAux_cons, digitsValAux_nil,
        charVal_digitChar (Nat.mod_lt n (by omega)),
        List.length_append, List.length_singleton, pow_succ]
      rw [show acc * (10 ^ (natReprAux (g + 1) (n / 10)).length * 10) =
        acc * 10 ^ (natReprAux (g + 1) (n / 10)).length * 10 from by ring]
      generalize acc * 10 ^ (natReprAux (g + 1) (n / 10)).length = Q
      omega

theorem digitsVal_natReprS (n : Nat) : digitsVal (natReprS n) = n := by
  unfold digitsVal natReprS
  rw [natReprAux_val n n (le_refl n) 0]
  simp

theorem digitsVal_cons_zero (s : Chars) : digitsVal ('0' :: s) = digitsVal s := by
  unfold digitsVal
  rw [digitsValAux_cons, show 10 * 0 + charVal '0' = 0 from rfl]

theorem isPySpace_of_isDigit {c : Char} (h : isPySpace c = true) :
    c.isDigit = false := by
  simp only [isPySpace, Bool.or_eq_true, decide_eq_true_eq] at h
  rcases h with ((((h | h) | h) | h) | h) | h <;> subst h <;> decide

theorem digit_not_space {c : Char} (h : c.isDigit = true) : isPySpace c = false := by
  cases hs : isPySpace c with
  | false => rfl
  | true => rw [isPySpace_of_isDigit hs] at h; exact absurd h (by simp)

theorem digit_not_colon {c : Char} (h : c.isDigit = true) : c ≠ ':' := by
  intro hc
  subst hc
  exact absurd h (by decide)

theorem digit_not_dash {c : Char} (h : c.isDigit = true) : c ≠ '-' := by
  intro hc; subst hc; exact absurd h (by decide)

theorem digit_not_plus {c : Char} (h : c.isDigit = true) : c ≠ '+' := by
  intro hc; subst hc; exact absurd h (by decide)

theorem parseIntPyCore_cons (c : Char) (ds : Chars) :
    parseIntPyCore (c :: ds) =
      (if c = '-' then
        if ds ≠ [] ∧ ds.all Char.isDigit then some (-(digitsVal ds : Int)) else none
      else if c = '+' then
        if ds ≠ [] ∧ ds.all Char.isDigit then some (digitsVal ds : Int) else none
      else if (c :: ds).all Char.isDigit then some (digitsVal (c :: ds) : Int)
      else none) := rfl

theorem parseIntPy_strip {s : Chars} (h : ∀ c ∈ s, isPySpace c = false) :
    parseIntPy s = parseIntPyCore s := by
  unfold parseIntPy
  rw [dropWhile_eq_self h]
  rw [dropWhile_eq_self (fun d hdm => h d (List.mem_reverse.mp hdm))]
  rw [List.reverse_reverse]

theorem parseIntPy_digits {s : Chars} (hne : s ≠ [])
    (hd : ∀ c ∈ s, c.isDigit = true) : parseIntPy s = some (digitsVal s : Int) := by
  rw [parseIntPy_strip (fun c hc => digit_not_space (hd c hc))]
  cases s with
  | nil => exact absurd rfl hne
  | cons c ds =>
    have hc := hd c (by simp)
    have hall2 : (c :: ds).all Char.isDigit = true :=
      List.all_eq_true.mpr (fun d hm => hd d hm)
    rw [parseIntPyCore_cons]
    rw [if_neg (digit_not_dash hc), if_neg (digit_not_plus hc), if_pos hall2]

theorem intReprS_chars (i : Int) :
    ∀ c ∈ intReprS i, c.isDigit = true ∨ c = '-' := by
  unfold intReprS
  split
  · intro c hc
    simp only [List.mem_cons] at hc
    rcases hc with rfl | hc
    · exact Or.inr rfl
    · exact Or.inl (natReprS_digits _ c hc)
  · intro c hc
    exact Or.inl (natReprS_digits _ c hc)

theorem intReprS_ne_nil (i : Int) : intReprS i ≠ [] := by
  unfold intReprS
  split
  · simp
  · exact natReprS_ne_nil _

theorem intReprS_not_space (i : Int) : ∀ c ∈ intReprS i, isPySpace c = false := by
  intro c hc
  rcases intReprS_chars i c hc with h | h
  · exact digit_not_space h
  · subst h; decide

theorem intReprS_not_colon (i : Int) : ∀ c ∈ intReprS i, c ≠ ':' := by
  intro c hc
  rcases intReprS_chars i c hc with h | h
  · exact digit_not_colon h
  · subst h; decide

theorem parseIntPy_intReprS (i : Int) : parseIntPy (intReprS i) = some i := by
  rw [parseIntPy_strip (intReprS_not_space i)]
  by_cases hi : i < 0
  · unfold intReprS
    rw [if_pos hi]
    rw [parseIntPyCore_cons]
    rw [if_pos rfl]
    rw [if_pos ⟨natReprS_ne_nil _,
      List.all_eq_true.mpr (fun d hm => natReprS_digits _ d hm)⟩]
    rw [digitsVal_natReprS]
    congr 1
    omega
  · unfold intReprS
    rw [if_neg hi]
    cases h : natReprS i.natAbs with
    | nil => exact absurd h (natReprS_ne_nil _)
    | cons c ds =>
      have hdigits : ∀ d ∈ c :: ds, d.isDigit = true := by
        intro d hm
        exact natReprS_digits i.natAbs d (h ▸ hm)
      have hc := hdigits c (by simp)
      rw [parseIntPyCore_cons]
      rw [if_neg (digit_not_dash hc), if_neg (digit_not_plus hc),
        if_pos (List.all_eq_true.mpr hdigits)]
      rw [← h, digitsVal_natReprS]
      congr 1
      omega

theorem pad2Int_chars (i : Int) :
    ∀ c ∈ pad2Int i, c.isDigit = true ∨ c = '-' := by
  unfold pad2Int
  split
  · intro c hc
    simp only [List.mem_cons] at hc
    rcases hc with rfl | hc
    · exact Or.inl (by decide)
    · exact intReprS_chars i c hc
  · exact intReprS_chars i

theorem pad2Int_ne_nil (i : Int) : pad2Int i ≠ [] := by
  unfold pad2Int
  split
  · simp
  · exact intReprS_ne_nil i

theorem pad2Int_not_space (i : Int) : ∀ c ∈ pad2Int i, isPySpace c = false := by
  intro c hc
  rcases pad2Int_chars i c hc with h | h
  · exact digit_not_space h
  · subst h; decide

theorem pad2Int_not_colon (i : Int) : ∀ c ∈ pad2Int i, c ≠ ':' := by
  intro c hc
  rcases pad2Int_chars i c hc with h | h
  · exact digit_not_colon h
  · subst h; decide

theorem parseIntPy_pad2Int (i : Int) : parseIntPy (pad2Int i) = some i := by
  unfold pad2Int
  split
  · rename_i hlen
    have hnonneg : ¬ i < 0 := by
      intro hi
      unfold intReprS at hlen
      rw [if_pos hi] at hlen
      cases h : natReprS i.natAbs with
      | nil => exact natReprS_ne_nil _ h
      | cons a b => rw [h] at hlen; simp at hlen; omega
    have hdigits : ∀ d ∈ intReprS i, d.isDigit = true := by
      intro d hm
      rcases intReprS_chars i d hm with h | h
      · exact h
      · exfalso
        subst h
        unfold intReprS at hm
        rw [if_neg hnonneg] at hm
        have := natReprS_digits i.natAbs '-' hm
        exact absurd this (by decide)
    rw [parseIntPy_digits (by simp)
      (by
        intro d hm
        simp only [List.mem_cons] at hm
        rcases hm with rfl | hm
        · decide
        · exact hdigits d hm)]
    rw [digitsVal_cons_zero]
    unfold intReprS
    rw [if_neg hnonneg]
    rw [digitsVal_natReprS]
    congr 1
    omega
  · exact parseIntPy_intReprS i

/-! ## Claims C4, C5, C6 and the C2 counterexample -/

/-- C4 (corrected): the claim says every malformed start-time string makes the
minute-granularity end-time calculator fail loudly with a parse error.  That
holds for the `main_gemini.py` variant, but the `src/main_geminiy.py` variant
catches every exception and silently returns the start string unchanged
(its own comment even claims it adds one hour, which it does not).
Amended: on every start string whose parse stage fails, the `main_gemini.py`
variant raises (result `none`) and the `main_geminiy.py` variant silently
returns the input unchanged. -/
theorem C4_amended : ∀ (s : Chars) (dur : Option Int), parse12h s = none →
    calculate_end_time_from_12h s dur = none ∧
    calculate_end_time_from_12h_g s dur = s := by
  intro s dur h
  constructor
  · unfold calculate_end_time_from_12h calc12hCore
    rw [h]
  · unfold calculate_end_time_from_12h_g calc12hCore
    rw [h]
    rfl

/-- C4 counterexample: the unparsable start string `"garbage"` makes the
`main_geminiy.py` calculator return `"garbage"` unchanged instead of raising. -/
theorem C4_counterexample :
    calculate_end_time_from_12h_g (str "garbage") (some 60) = str "garbage" ∧
    parse12h (str "garbage") = none := by
  constructor <;> rfl

/-- Witness for `C4_amended` at the concrete input `"garbage"`. -/
theorem C4_witness :
    calculate_end_time_from_12h (str "garbage") (some 60) = none ∧
    calculate_end_time_from_12h_g (str "garbage") (some 60) = str "garbage" :=
  C4_amended (str "garbage") (some 60) (by decide)

/-- C5 (corrected): the claim says the external-hint normalizer returns zero
tasks exactly when `event_name` is absent and resolves a missing date via the
date resolver.  That is the `src/main_geminiy.py` behaviour; the
`main_gemini.py` variant instead also rejects (returns zero tasks) whenever
the `date` field is absent.  Amended accordingly. -/
theorem C5_amended :
    (∀ (a : Analysis) (prompt : Chars) (today : Date),
       convert_analysis_to_tasks_g a prompt today = [] ↔
         truthyS a.event_name = false) ∧
    (∀ (a : Analysis) (prompt : Chars) (today : Date),
       truthyS a.event_name = true → a.date = none →
       convert_analysis_to_tasks_g a prompt today =
         [⟨a.event_name.getD [], startTimeResolve a prompt,
           calculate_end_time_from_12h_g (startTimeResolve a prompt)
             (durationGet a),
           parse_date_from_prompt prompt today⟩]) ∧
    (∀ (a : Analysis) (prompt : Chars),
       truthyS a.event_name = false ∨ truthyS a.date = false →
       convert_analysis_to_tasks a prompt = some []) := by
  refine ⟨?_, ?_, ?_⟩
  · intro a prompt today
    cases he : a.event_name with
    | none => simp [convert_analysis_to_tasks_g, he, truthyS]
    | some en =>
      by_cases hne : en.isEmpty
      · simp [convert_analysis_to_tasks_g, he, truthyS, hne]
      · simp [convert_analysis_to_tasks_g, he, truthyS, hne]
  · intro a prompt today ht hd
    cases he : a.event_name with
    | none => rw [he] at ht; simp [truthyS] at ht
    | some en =>
      rw [he] at ht
      simp only [truthyS, Bool.not_eq_true'] at ht
      simp [convert_analysis_to_tasks_g, he, hd, ht]
  · intro a prompt hfalse
    cases he : a.event_name with
    | none => simp [convert_analysis_to_tasks, he]
    | some en =>
      cases hd : a.date with
      | none => simp [convert_analysis_to_tasks, he, hd]
      | some dt =>
        rw [he, hd] at hfalse
        simp only [truthyS, Bool.not_eq_true'] at hfalse
        rcases hfalse with h | h
        · have h' : en = [] := by simpa using h
          simp [convert_analysis_to_tasks, he, hd, h']
        · have h' : dt = [] := by simpa using h
          simp [convert_analysis_to_tasks, he, hd, h']

/-- C5 counterexample: a hint with `event_name` present but `date` absent
makes the `main_gemini.py` normalizer return zero tasks, contradicting
"returns zero tasks exactly when the hint's event_name is absent". -/
theorem C5_counterexample :
    truthyS (some (str "Lunch")) = true ∧
    convert_analysis_to_tasks
      ⟨true, some (str "Lunch"), none, none, none⟩ (str "x") = some [] := by
  constructor <;> rfl

/-- Witness for `C5_amended` at a concrete hint with a missing date. -/
theorem C5_witness :
    convert_analysis_to_tasks_g
      ⟨true, some (str "Lunch"), none, none, none⟩ (str "x") ⟨2025, 6, 10⟩ =
      [⟨(some (str "Lunch")).getD [],
        startTimeResolve ⟨true, some (str "Lunch"), none, none, none⟩ (str "x"),
        calculate_end_time_from_12h_g
          (startTimeResolve ⟨true, some (str "Lunch"), none, none, none⟩
            (str "x"))
          (durationGet ⟨true, some (str "Lunch"), none, none, none⟩),
        parse_date_from_prompt (str "x") ⟨2025, 6, 10⟩⟩] :=
  C5_amended.2.1 ⟨true, some (str "Lunch"), none, none, none⟩ (str "x")
    ⟨2025, 6, 10⟩ (by decide) rfl

/-- C6 counterexample: when the analyzer is available and all three
attempts fail, the geminiy `schedule` endpoint does NOT fall back to the
direct-parse path: it feeds `_fallback_extraction` through the hint
normalizer and returns that task.  On "gym at 7am" (reference 2025-06-10)
this yields a task named "gym at 7am", while the direct-parse path would
return "Gym workout" — the two outputs differ. -/
theorem C6_counterexample :
    schedule_g true (fun _ => none) (fun _ => ⟨false, none, none, none, none⟩)
      (str "gym at 7am") ⟨2025, 6, 10⟩ =
      [⟨str "gym at 7am", str "7:00 AM", str "8:00 AM", str "2025-06-11"⟩] ∧
    parse_tasks_directly_g (str "gym at 7am") ⟨2025, 6, 10⟩ =
      [⟨str "Gym workout", str "7:00 AM", str "8:00 AM", str "2025-06-11"⟩] ∧
    schedule_g true (fun _ => none) (fun _ => ⟨false, none, none, none, none⟩)
      (str "gym at 7am") ⟨2025, 6, 10⟩ ≠
      parse_tasks_directly_g (str "gym at 7am") ⟨2025, 6, 10⟩ := by
  refine ⟨?_, ?_, ?_⟩ <;> decide

/-- C6 (corrected): the retry bound is real — the geminiy analyzer consults
at most the first 3 attempt outcomes and a third attempt that succeeds
after two failures is used — and no analyzer failure reaches the caller;
but exhausting the retries does not reach the direct-parse path: the
analyzer degrades to `_fallback_extraction` (whose `success` flag is true),
and whenever the hint normalizer applied to that extraction yields a
non-empty task list the endpoint returns that list instead of running the
direct parser.  In general the endpoint returns either the direct-parse
output or a non-empty normalizer output.  The `main_gemini.py` orchestrator
does fall back to direct parsing when its analyzer fails, but it performs
no retries at all: its analyzer consults a single attempt. -/
theorem C6_amended :
    (∀ (avail : Bool) (att att2 : Nat → Option Chars)
       (pr : Chars → Analysis) (msg : Chars) (today : Date),
       att 0 = att2 0 → att 1 = att2 1 → att 2 = att2 2 →
       analyze_message avail att pr msg today =
         analyze_message avail att2 pr msg today) ∧
    (∀ (att : Nat → Option Chars) (pr : Chars → Analysis) (msg : Chars)
       (today : Date) (r : Chars),
       att 0 = none → att 1 = none → att 2 = some r →
       analyze_message true att pr msg today = pr r) ∧
    (∀ (att : Nat → Option Chars) (pr : Chars → Analysis) (prompt : Chars)
       (today : Date),
       att 0 = none → att 1 = none → att 2 = none →
       analyze_message true att pr prompt today =
         fallback_extraction prompt today ∧
       (fallback_extraction prompt today).success = true ∧
       (convert_analysis_to_tasks_g (fallback_extraction prompt today)
           prompt today ≠ [] →
        schedule_g true att pr prompt today =
          convert_analysis_to_tasks_g (fallback_extraction prompt today)
            prompt today)) ∧
    (∀ (avail : Bool) (att : Nat → Option Chars) (pr : Chars → Analysis)
       (prompt : Chars) (today : Date),
       schedule_g avail att pr prompt today =
           parse_tasks_directly_g prompt today ∨
         ((analyze_message avail att pr prompt today).success = true ∧
          schedule_g avail att pr prompt today =
            convert_analysis_to_tasks_g
              (analyze_message avail att pr prompt today) prompt today ∧
          convert_analysis_to_tasks_g
            (analyze_message avail att pr prompt today) prompt today ≠ [])) ∧
    (∀ (pr : Chars → Analysis) (prompt : Chars) (today : Date),
       schedule_gm none pr prompt today = parse_tasks_directly prompt today) := by
  refine ⟨?_, ?_, ?_, ?_, ?_⟩
  · intro avail att att2 pr msg today h0 h1 h2
    unfold analyze_message
    rw [h0, h1, h2]
  · intro att pr msg today r h0 h1 h2
    unfold analyze_message
    rw [h0, h1, h2]
    simp
  · intro att pr prompt today h0 h1 h2
    have ha : analyze_message true att pr prompt today =
        fallback_extraction prompt today := by
      unfold analyze_message
      rw [h0, h1, h2]
      simp
    refine ⟨ha, rfl, ?_⟩
    intro hne
    have hf : (convert_analysis_to_tasks_g (fallback_extraction prompt today)
        prompt today).isEmpty = false := by
      cases hc : convert_analysis_to_tasks_g (fallback_extraction prompt today)
          prompt today with
      | nil => exact absurd hc hne
      | cons a as => rfl
    unfold schedule_g
    simp only [if_true]
    rw [ha]
    rw [if_pos (show (fallback_extraction prompt today).success = true
      from rfl)]
    simp [hf]
  · intro avail att pr prompt today
    unfold schedule_g
    cases avail with
    | false => exact Or.inl (by simp)
    | true =>
      simp only [if_true]
      cases hs : (analyze_message true att pr prompt today).success with
      | false => exact Or.inl (by simp [hs])
      | true =>
        cases hts : (convert_analysis_to_tasks_g
            (analyze_message true att pr prompt today) prompt today).isEmpty with
        | true =>
          exact Or.inl (by simp [hs, hts])
        | false =>
          refine Or.inr ⟨rfl, by simp [hts], ?_⟩
          intro hnil
          rw [hnil] at hts
          simp at hts
  · intro pr prompt today
    unfold schedule_gm analyze_message_gm
    simp

/-- Witness for `C6_amended`: with three failing attempts on the prompt
"gym at 7am" the analyzer degrades to the fallback extraction, the flag is
true, and the endpoint returns the normalized fallback task list (non-empty
at this input). -/
theorem C6_witness :
    analyze_message true (fun _ => none)
      (fun _ => ⟨false, none, none, none, none⟩) (str "gym at 7am")
      ⟨2025, 6, 10⟩ = fallback_extraction (str "gym at 7am") ⟨2025, 6, 10⟩ ∧
    (fallback_extraction (str "gym at 7am") ⟨2025, 6, 10⟩).success = true ∧
    schedule_g true (fun _ => none)
      (fun _ => ⟨false, none, none, none, none⟩) (str "gym at 7am")
      ⟨2025, 6, 10⟩ =
      convert_analysis_to_tasks_g
        (fallback_extraction (str "gym at 7am") ⟨2025, 6, 10⟩)
        (str "gym at 7am") ⟨2025, 6, 10⟩ := by
  obtain ⟨h1, h2, h3⟩ := C6_amended.2.2.1 (fun _ => none)
    (fun _ => ⟨false, none, none, none, none⟩) (str "gym at 7am")
    ⟨2025, 6, 10⟩ rfl rfl rfl
  exact ⟨h1, h2, h3 (by decide)⟩

/-- C2 counterexample: with a valid start of 11:00 PM and a 2-hour (120
minute) duration — a duration within a single day — both end-time calculator
variants produce the malformed `"13:00 PM"` (no 24-hour wraparound), and
applying the calculator to that end time with the negated duration yields
`"11:00 AM"`, not the original 11:00 PM (nor anything equal to it modulo a
24-hour day). -/
theorem C2_counterexample :
    calculate_end_time 11 0 (str "PM") 2 = str "13:00 PM" ∧
    parse12h (str "13:00 PM") = some (13, 0, str "PM") ∧
    calculate_end_time 13 0 (str "PM") (-2) = str "11:00 AM" ∧
    calculate_end_time_from_12h (str "11:00 PM") (some 120) =
      some (str "13:00 PM") ∧
    calculate_end_time_from_12h (str "13:00 PM") (some (-120)) =
      some (str "11:00 AM") ∧
    str "11:00 AM" ≠ str "11:00 PM" := by
  refine ⟨?_, ?_, ?_, ?_, ?_, ?_⟩ <;> decide

/-! ## Round-trip machinery for C2 -/

theorem ampmStr_ne_nil (pm : Bool) : ampmStr pm ≠ [] := by
  cases pm <;> decide

theorem ampmStr_not_space (pm : Bool) : ∀ c ∈ ampmStr pm, isPySpace c = false := by
  cases pm <;> decide

theorem parse12h_build {a b p : Chars} {x y : Int}
    (hane : a ≠ []) (hans : ∀ c ∈ a, isPySpace c = false)
    (hanc : ∀ c ∈ a, c ≠ ':')
    (hbns : ∀ c ∈ b, isPySpace c = false) (hbnc : ∀ c ∈ b, c ≠ ':')
    (hpne : p ≠ []) (hpns : ∀ c ∈ p, isPySpace c = false)
    (hxa : parseIntPy a = some x) (hyb : parseIntPy b = some y) :
    parse12h (a ++ ':' :: b ++ ' ' :: p) = some (x, y, p) := by
  unfold parse12h
  have hword : a ++ ':' :: b ≠ [] := by simp
  have hwns : ∀ c ∈ a ++ ':' :: b, isPySpace c = false := by
    intro c hc
    simp only [List.mem_append, List.mem_cons] at hc
    rcases hc with hc | rfl | hc
    · exact hans c hc
    · decide
    · exact hbns c hc
  rw [show a ++ ':' :: b ++ ' ' :: p = (a ++ ':' :: b) ++ ' ' :: p from by simp]
  rw [splitWs_two hword hwns hpne hpns]
  dsimp only
  rw [splitColon_two hanc hbnc]
  dsimp only
  rw [hxa, hyb]

/-- Parsing the output of the shared 24-to-12-hour renderer for an hour in
[0, 24) recovers the same 24-hour value through the shared 12-to-24-hour
conversion. -/
theorem render12_parse {e : Int} (mm : Int) (he0 : 0 ≤ e) (he24 : e < 24) :
    ∃ eh p, parse12h (render12 e mm) = some (eh, mm, p) ∧ to24 eh p = e := by
  unfold render12
  by_cases h12 : e ≥ 12
  · rw [if_pos h12]
    by_cases hgt : e > 12
    · rw [if_pos hgt]
      refine ⟨e - 12, str "PM", ?_, ?_⟩
      · exact parse12h_build (intReprS_ne_nil _) (intReprS_not_space _)
          (intReprS_not_colon _) (pad2Int_not_space _) (pad2Int_not_colon _)
          (by decide) (by decide) (parseIntPy_intReprS _) (parseIntPy_pad2Int _)
      · unfold to24
        rw [if_pos ⟨rfl, by omega⟩]
        omega
    · rw [if_neg hgt]
      refine ⟨e, str "PM", ?_, ?_⟩
      · exact parse12h_build (intReprS_ne_nil _) (intReprS_not_space _)
          (intReprS_not_colon _) (pad2Int_not_space _) (pad2Int_not_colon _)
          (by decide) (by decide) (parseIntPy_intReprS _) (parseIntPy_pad2Int _)
      · unfold to24
        rw [if_neg (fun hh => by omega : ¬(str "PM" = str "PM" ∧ e < 12))]
        rw [if_neg (fun hh => absurd hh.1 (by decide) :
          ¬(str "PM" = str "AM" ∧ e = 12))]
  · rw [if_neg h12]
    by_cases h0 : e = 0
    · rw [if_pos h0]
      refine ⟨12, str "AM", ?_, ?_⟩
      · exact parse12h_build (intReprS_ne_nil _) (intReprS_not_space _)
          (intReprS_not_colon _) (pad2Int_not_space _) (pad2Int_not_colon _)
          (by decide) (by decide) (parseIntPy_intReprS _) (parseIntPy_pad2Int _)
      · unfold to24
        rw [if_neg (fun hh => absurd hh.1 (by decide) :
          ¬(str "AM" = str "PM" ∧ (12 : Int) < 12))]
        rw [if_pos ⟨rfl, rfl⟩]
        omega
    · rw [if_neg h0]
      refine ⟨e, str "AM", ?_, ?_⟩
      · exact parse12h_build (intReprS_ne_nil _) (intReprS_not_space _)
          (intReprS_not_colon _) (pad2Int_not_space _) (pad2Int_not_colon _)
          (by decide) (by decide) (parseIntPy_intReprS _) (parseIntPy_pad2Int _)
      · unfold to24
        rw [if_neg (fun hh => absurd hh.1 (by decide) :
          ¬(str "AM" = str "PM" ∧ e < 12))]
        rw [if_neg (fun hh => by omega : ¬(str "AM" = str "AM" ∧ e = 12))]

/-- Rendering the 24-hour value of a valid 12-hour time gives back its
canonical 12-hour string. -/
theorem render12_to24_id (h : Nat) (m : Int) (pm : Bool)
    (h1 : 1 ≤ h) (h2 : h ≤ 12) :
    render12 (to24 (h : Int) (ampmStr pm)) m =
      intReprS (h : Int) ++ ':' :: pad2Int m ++ ' ' :: ampmStr pm := by
  cases pm with
  | false =>
    rw [show ampmStr false = str "AM" from rfl]
    unfold to24
    rw [if_neg (fun hh => absurd hh.1 (by decide) :
      ¬(str "AM" = str "PM" ∧ (h : Int) < 12))]
    by_cases h12 : h = 12
    · rw [if_pos ⟨rfl, by omega⟩]
      unfold render12
      rw [if_neg (by omega : ¬(0 : Int) ≥ 12), if_pos rfl]
      rw [show (12 : Int) = (h : Int) from by omega]
    · rw [if_neg (fun hh => by omega : ¬(str "AM" = str "AM" ∧ (h : Int) = 12))]
      unfold render12
      rw [if_neg (by omega : ¬(h : Int) ≥ 12)]
      rw [if_neg (by omega : ¬(h : Int) = 0)]
  | true =>
    rw [show ampmStr true = str "PM" from rfl]
    unfold to24
    by_cases h12 : h = 12
    · rw [if_neg (fun hh => by omega : ¬(str "PM" = str "PM" ∧ (h : Int) < 12))]
      rw [if_neg (fun hh => absurd hh.1 (by decide) :
        ¬(str "PM" = str "AM" ∧ (h : Int) = 12))]
      unfold render12
      rw [if_pos (by omega : (h : Int) ≥ 12), if_neg (by omega : ¬(h : Int) > 12)]
    · rw [if_pos ⟨rfl, by omega⟩]
      unfold render12
      rw [if_pos (by omega : (h : Int) + 12 ≥ 12),
        if_pos (by omega : (h : Int) + 12 > 12)]
      rw [show (h : Int) + 12 - 12 = (h : Int) from by ring]

theorem to24_bounds (h : Nat) (pm : Bool) (h1 : 1 ≤ h) (h2 : h ≤ 12) :
    0 ≤ to24 (h : Int) (ampmStr pm) ∧ to24 (h : Int) (ampmStr pm) < 24 := by
  cases pm with
  | false =>
    rw [show ampmStr false = str "AM" from rfl]
    unfold to24
    rw [if_neg (fun hh => absurd hh.1 (by decide) :
      ¬(str "AM" = str "PM" ∧ (h : Int) < 12))]
    split <;> omega
  | true =>
    rw [show ampmStr true = str "PM" from rfl]
    unfold to24
    by_cases hlt : (h : Int) < 12
    · rw [if_pos ⟨rfl, hlt⟩]
      omega
    · rw [if_neg (fun hh => hlt hh.2)]
      rw [if_neg (fun hh => absurd hh.1 (by decide) :
        ¬(str "PM" = str "AM" ∧ (h : Int) = 12))]
      omega

/-- C2 (corrected): the claimed round-trip `calc(calc(start, d), -d) = start`
(mod 24h) fails whenever `start + d` crosses midnight (see
`C2_counterexample`); amended, it holds — for both the hour-granularity and
the minute-granularity calculator — exactly when the end time stays within
the same day, i.e. when the 24-hour end value lies in [0, 24) (equivalently,
end total minutes in [0, 1440)).  The duration `d` below ranges over exactly
those values. -/
theorem C2_amended :
    (∀ (h m : Nat) (pm : Bool) (e24 : Int),
       1 ≤ h → h ≤ 12 → m ≤ 59 → 0 ≤ e24 → e24 < 24 →
       ∃ (eh em : Int) (p : Chars),
         parse12h (calculate_end_time (h : Int) (m : Int) (ampmStr pm)
           (e24 - to24 (h : Int) (ampmStr pm))) = some (eh, em, p) ∧
         calculate_end_time eh em p (-(e24 - to24 (h : Int) (ampmStr pm))) =
           intReprS (h : Int) ++ ':' :: pad2Int (m : Int) ++ ' ' :: ampmStr pm) ∧
    (∀ (h m : Nat) (pm : Bool) (etot : Int),
       1 ≤ h → h ≤ 12 → m ≤ 59 → 0 ≤ etot → etot < 1440 →
       ∃ e : Chars,
         calculate_end_time_from_12h
           (intReprS (h : Int) ++ ':' :: pad2Int (m : Int) ++ ' ' :: ampmStr pm)
           (some (etot - (to24 (h : Int) (ampmStr pm) * 60 + (m : Int)))) =
           some e ∧
         calculate_end_time_from_12h e
           (some (-(etot - (to24 (h : Int) (ampmStr pm) * 60 + (m : Int))))) =
           some (intReprS (h : Int) ++ ':' :: pad2Int (m : Int) ++
             ' ' :: ampmStr pm)) := by
  constructor
  · intro h m pm e24 h1 h2 hm he0 he24
    unfold calculate_end_time
    rw [show to24 (h : Int) (ampmStr pm) + (e24 - to24 (h : Int) (ampmStr pm)) =
      e24 from by ring]
    obtain ⟨eh, p, hparse, hto⟩ := render12_parse (m : Int) he0 he24
    refine ⟨eh, (m : Int), p, hparse, ?_⟩
    rw [hto]
    rw [show e24 + -(e24 - to24 (h : Int) (ampmStr pm)) =
      to24 (h : Int) (ampmStr pm) from by ring]
    exact render12_to24_id h (m : Int) pm h1 h2
  · intro h m pm etot h1 h2 hm he0 he2
    obtain ⟨hb0, hb24⟩ := to24_bounds h pm h1 h2
    unfold calculate_end_time_from_12h calc12hCore
    rw [parse12h_build (intReprS_ne_nil _) (intReprS_not_space _)
      (intReprS_not_colon _) (pad2Int_not_space _) (pad2Int_not_colon _)
      (ampmStr_ne_nil pm) (ampmStr_not_space pm)
      (parseIntPy_intReprS ((h : Nat) : Int)) (parseIntPy_pad2Int ((m : Nat) : Int))]
    dsimp only
    rw [show to24 (h : Int) (ampmStr pm) * 60 + (m : Int) +
      (etot - (to24 (h : Int) (ampmStr pm) * 60 + (m : Int))) = etot from by ring]
    refine ⟨render12 (etot / 60) (etot % 60), rfl, ?_⟩
    obtain ⟨eh2, p2, hparse2, hto2⟩ :=
      render12_parse (etot % 60) (by omega : (0 : Int) ≤ etot / 60)
        (by omega : etot / 60 < 24)
    rw [hparse2]
    dsimp only
    rw [hto2]
    rw [show etot / 60 * 60 + etot % 60 +
      -(etot - (to24 (h : Int) (ampmStr pm) * 60 + (m : Int))) =
      to24 (h : Int) (ampmStr pm) * 60 + (m : Int) from by omega]
    rw [show (to24 (h : Int) (ampmStr pm) * 60 + (m : Int)) / 60 =
      to24 (h : Int) (ampmStr pm) from by omega]
    rw [show (to24 (h : Int) (ampmStr pm) * 60 + (m : Int)) % 60 =
      (m : Int) from by omega]
    rw [render12_to24_id h (m : Int) pm h1 h2]

/-- Witness for `C2_amended` at 1:00 AM with the end fixed at 03:xx. -/
theorem C2_witness :
    (∃ (eh em : Int) (p : Chars),
       parse12h (calculate_end_time ((1 : Nat) : Int) ((0 : Nat) : Int)
         (ampmStr false) (3 - to24 ((1 : Nat) : Int) (ampmStr false))) =
         some (eh, em, p) ∧
       calculate_end_time eh em p
           (-(3 - to24 ((1 : Nat) : Int) (ampmStr false))) =
         intReprS ((1 : Nat) : Int) ++ ':' :: pad2Int ((0 : Nat) : Int) ++
           ' ' :: ampmStr false) ∧
    (∃ e : Chars,
       calculate_end_time_from_12h
         (intReprS ((11 : Nat) : Int) ++ ':' :: pad2Int ((30 : Nat) : Int) ++
           ' ' :: ampmStr true)
         (some (1400 - (to24 ((11 : Nat) : Int) (ampmStr true) * 60 +
           ((30 : Nat) : Int)))) = some e ∧
       calculate_end_time_from_12h e
         (some (-(1400 - (to24 ((11 : Nat) : Int) (ampmStr true) * 60 +
           ((30 : Nat) : Int))))) =
         some (intReprS ((11 : Nat) : Int) ++ ':' :: pad2Int ((30 : Nat) : Int) ++
           ' ' :: ampmStr true)) :=
  ⟨C2_amended.1 1 0 false 3 (by decide) (by decide) (by decide)
      (by decide) (by decide),
    C2_amended.2 11 30 true 1400 (by decide) (by decide) (by decide)
      (by decide) (by decide)⟩

/-! ## Whitespace-only prompts: every scanner misses (toolkit for C10) -/

theorem space_toLower {c : Char} (h : isPySpace c = true) : c.toLower = c := by
  simp only [isPySpace, Bool.or_eq_true, decide_eq_true_eq] at h
  rcases h with ((((h | h) | h) | h) | h) | h <;> subst h <;> decide

theorem toLowerStr_space {prompt : Chars}
    (hall : ∀ c ∈ prompt, isPySpace c = true) :
    ∀ c ∈ toLowerStr prompt, isPySpace c = true := by
  intro c hc
  rcases List.mem_map.mp hc with ⟨c0, hc0, rfl⟩
  rw [space_toLower (hall c0 hc0)]
  exact hall c0 hc0

theorem containsSub_space_false {pat s : Chars}
    (hpat : ∃ c ∈ pat, isPySpace c = false)
    (hall : ∀ c ∈ s, isPySpace c = true) : containsSub pat s = false := by
  cases hcs : containsSub pat s with
  | false => rfl
  | true =>
    exfalso
    obtain ⟨c, hc, hcf⟩ := hpat
    have := hall c (mem_of_containsSub hcs c hc)
    simp_all

theorem litCI_space {pat s r : Chars} (hne : pat ≠ [])
    (hhead : isPySpace (pat.head!.toLower) = false)
    (h : litCI pat s = some r) : ∃ c ∈ s, isPySpace c = false := by
  obtain ⟨c, cs, rfl, hcl⟩ := litCI_head hne h
  refine ⟨c, by simp, ?_⟩
  cases hsp : isPySpace c with
  | false => rfl
  | true =>
    have hc2 : c = pat.head!.toLower := by rw [← space_toLower hsp, hcl]
    have hc3 : isPySpace (pat.head!.toLower) = true := by rw [← hc2]; exact hsp
    rw [hc3] at hhead
    simp at hhead

theorem litPlain_space {pat s r : Chars} (hne : pat ≠ [])
    (hhead : isPySpace pat.head! = false)
    (h : litPlain pat s = some r) : ∃ c ∈ s, isPySpace c = false := by
  obtain ⟨cs, rfl⟩ := litPlain_head hne h
  exact ⟨pat.head!, by simp, hhead⟩

theorem spanP_digit_space {s : Chars} (h : (spanP Char.isDigit s).1 ≠ []) :
    ∃ c ∈ s, isPySpace c = false := by
  obtain ⟨c, hc, hd⟩ := spanP_fst_ne_nil _ _ h
  exact ⟨c, hc, digit_not_space hd⟩

theorem scanOpt_space_none {α : Type} {f : Chars → Option α} {s : Chars}
    (hall : ∀ c ∈ s, isPySpace c = true)
    (hf : ∀ (b : Chars) (x : α), f b = some x → ∃ c ∈ b, isPySpace c = false) :
    scanOpt f s = none := by
  cases hscan : scanOpt f s with
  | none => rfl
  | some x =>
    exfalso
    obtain ⟨a, b, rfl, hb⟩ := scanOpt_some hscan
    obtain ⟨c, hc, hcf⟩ := hf b x hb
    have := hall c (by simp [hc])
    simp_all

theorem timeMatchAt_space {s : Chars} {cap : TimeCap}
    (h : timeMatchAt s = some cap) : ∃ c ∈ s, isPySpace c = false := by
  unfold timeMatchAt at h
  dsimp only at h
  by_cases he : (spanP Char.isDigit s).1.isEmpty
  · rw [if_pos he] at h
    simp at h
  · exact spanP_digit_space (by simpa using he)

theorem lunchMatchAt_space {s : Chars} {x : Chars × TimeCap}
    (h : lunchMatchAt s = some x) : ∃ c ∈ s, isPySpace c = false := by
  unfold lunchMatchAt at h
  cases hlit : litCI (str "lunch with ") s with
  | none => rw [hlit] at h; simp at h
  | some r => exact litCI_space (by decide) (by decide) hlit

theorem gymMatchAt_space {s : Chars} {x : TimeCap}
    (h : gymMatchAt s = some x) : ∃ c ∈ s, isPySpace c = false := by
  unfold gymMatchAt at h
  cases hlit : litCI (str "gym") s with
  | none => rw [hlit] at h; simp at h
  | some r => exact litCI_space (by decide) (by decide) hlit

theorem classMatchAt_space {s : Chars} {x : Chars × TimeCap}
    (h : classMatchAt s = some x) : ∃ c ∈ s, isPySpace c = false := by
  unfold classMatchAt at h
  cases hlit : litCI (str "class") s with
  | none => rw [hlit] at h; simp at h
  | some r => exact litCI_space (by decide) (by decide) hlit

theorem meetingMatchAt_space {s : Chars} {x : Chars × TimeCap}
    (h : meetingMatchAt s = some x) : ∃ c ∈ s, isPySpace c = false := by
  unfold meetingMatchAt at h
  cases hlit : litCI (str "meet") s with
  | none => rw [hlit] at h; simp at h
  | some r => exact litCI_space (by decide) (by decide) hlit

theorem appointTry_space {s : Chars} {x : Chars × TimeCap} :
    ∀ {L : List Chars},
      (∀ alt ∈ L, alt ≠ [] ∧ isPySpace (alt.head!.toLower) = false) →
      appointTry s L = some x → ∃ c ∈ s, isPySpace c = false := by
  intro L
  induction L with
  | nil => intro _ h; simp [appointTry] at h
  | cons alt rest ih =>
    intro hL h
    unfold appointTry at h
    cases hlit : litCI alt s with
    | none =>
      rw [hlit] at h
      exact ih (fun a ha => hL a (by simp [ha])) h
    | some r =>
      exact litCI_space (hL alt (by simp)).1 (hL alt (by simp)).2 hlit

theorem appointMatchAt_space {s : Chars} {x : Chars × TimeCap}
    (h : appointMatchAt s = some x) : ∃ c ∈ s, isPySpace c = false :=
  appointTry_space (by decide) h

theorem durationMatchAt_space {s : Chars} {x : Nat}
    (h : durationMatchAt s = some x) : ∃ c ∈ s, isPySpace c = false := by
  unfold durationMatchAt at h
  cases hlit : litCI (str "for") s with
  | none => rw [hlit] at h; simp at h
  | some r => exact litCI_space (by decide) (by decide) hlit

theorem nextDayMatchAt_space {s : Chars} {x : Nat}
    (h : nextDayMatchAt s = some x) : ∃ c ∈ s, isPySpace c = false := by
  unfold nextDayMatchAt at h
  cases hlit : litPlain (str "next") s with
  | none => rw [hlit] at h; simp at h
  | some r => exact litPlain_space (by decide) (by decide) hlit

theorem monthMatchAt_space {name s : Chars} {x : Chars} (hne : name ≠ [])
    (hhead : isPySpace name.head! = false)
    (h : monthMatchAt name s = some x) : ∃ c ∈ s, isPySpace c = false := by
  unfold monthMatchAt at h
  cases hlit : litPlain name s with
  | none => rw [hlit] at h; simp at h
  | some r => exact litPlain_space hne hhead hlit

theorem mmddMatchAt_space {s : Chars} {x : MMDDCap}
    (h : mmddMatchAt s = some x) : ∃ c ∈ s, isPySpace c = false := by
  unfold mmddMatchAt at h
  dsimp only at h
  by_cases he : (spanP Char.isDigit s).1.isEmpty
  · rw [if_pos he] at h
    simp at h
  · exact spanP_digit_space (by simpa using he)

theorem isoMatchAt_space {s : Chars} {x : ISOCap}
    (h : isoMatchAt s = some x) : ∃ c ∈ s, isPySpace c = false := by
  unfold isoMatchAt at h
  dsimp only at h
  by_cases hlen : (spanP Char.isDigit s).1.length = 4
  · refine spanP_digit_space (fun hnil => ?_)
    rw [hnil] at hlen
    simp at hlen
  · rw [if_pos hlen] at h
    simp at h

theorem keyScan_space_none {L : List (Chars × Nat)} {s : Chars}
    (hL : ∀ p ∈ L, ∃ c ∈ p.1, isPySpace c = false)
    (hall : ∀ c ∈ s, isPySpace c = true) : keyScan L s = none := by
  induction L with
  | nil => rfl
  | cons kn rest ih
  => obtain ⟨k, n⟩ := kn
     unfold keyScan
     rw [containsSub_space_false (hL (k, n) (by simp)) hall]
     simp only [Bool.false_eq_true, if_false]
     exact ih (fun p hp => hL p (by simp [hp]))

theorem monthGo_space_none {L : List (Chars × Nat)} {pl : Chars} {today : Date}
    (hL : ∀ p ∈ L, p.1 ≠ [] ∧ isPySpace p.1.head! = false)
    (hall : ∀ c ∈ pl, isPySpace c = true) : monthGo today pl L = none := by
  induction L with
  | nil => rfl
  | cons kn rest ih
  => obtain ⟨name, num⟩ := kn
     have hsearch : monthRegexSearch name pl = none := by
       apply scanOpt_space_none hall
       intro b dg hmatch
       exact monthMatchAt_space (hL (name, num) (by simp)).1
         (hL (name, num) (by simp)).2 hmatch
     unfold monthGo
     rw [hsearch]
     exact ih (fun p hp => hL p (by simp [hp]))

theorem splitWs_space {s : Chars} (hall : ∀ c ∈ s, isPySpace c = true) :
    splitWs s = [] := by
  unfold splitWs
  induction s with
  | nil => rfl
  | cons c r ih =>
    rw [splitWsAux_cons, if_pos (hall c (by simp))]
    simp only [List.isEmpty_nil, if_true]
    exact ih (fun d hd => hall d (by simp [hd]))

/-- C10 (confirmed): for an empty or whitespace-only prompt the direct-parse
path produces exactly one generic task with an empty name, start 12:00 PM,
end 1:00 PM, and the default date of reference + 1 day. -/
theorem C10_whitespace_prompt :
    ∀ (prompt : Chars) (today : Date),
      (∀ c ∈ prompt, isPySpace c = true) →
      parse_tasks_directly prompt today =
        [⟨[], str "12:00 PM", str "1:00 PM", formatS (addDays today 1)⟩] := by
  intro prompt today hall
  have hlow := toLowerStr_space hall
  have h1 : containsSub (str "today") (toLowerStr prompt) = false :=
    containsSub_space_false (by decide) hlow
  have h2 : containsSub (str "tomorrow") (toLowerStr prompt) = false :=
    containsSub_space_false (by decide) hlow
  have h3 : containsSub (str "next week") (toLowerStr prompt) = false :=
    containsSub_space_false (by decide) hlow
  have h4 : weekdayScan (toLowerStr prompt) = none :=
    keyScan_space_none (by decide) hlow
  have h5 : nextDaySearch (toLowerStr prompt) = none :=
    scanOpt_space_none hlow (fun b x hb => nextDayMatchAt_space hb)
  have h6 : monthScan (toLowerStr prompt) today = none :=
    monthGo_space_none (by decide) hlow
  have h7 : scanOpt mmddMatchAt prompt = none :=
    scanOpt_space_none hall (fun b x hb => mmddMatchAt_space hb)
  have h8 : scanOpt isoMatchAt prompt = none :=
    scanOpt_space_none hall (fun b x hb => isoMatchAt_space hb)
  have hdate : parse_date_from_prompt prompt today = formatS (addDays today 1) := by
    unfold parse_date_from_prompt
    dsimp only
    rw [h1, h2, h3, h4, h5, h6]
    unfold mmddResolve isoResolve
    rw [h7, h8]
    simp
  have hlunch : lunchSearch prompt = none :=
    scanOpt_space_none hall (fun b x hb => lunchMatchAt_space hb)
  have hgym : gymSearch prompt = none :=
    scanOpt_space_none hall (fun b x hb => gymMatchAt_space hb)
  have hclass : classSearch prompt = none :=
    scanOpt_space_none hall (fun b x hb => classMatchAt_space hb)
  have hmeet : meetingSearch prompt = none :=
    scanOpt_space_none hall (fun b x hb => meetingMatchAt_space hb)
  have htime : timeSearch prompt = none :=
    scanOpt_space_none hall (fun b x hb => timeMatchAt_space hb)
  unfold parse_tasks_directly
  dsimp only
  rw [hlunch, hgym, hclass, hmeet, hdate]
  unfold taskListOf genericTask
  rw [htime, splitWs_space hall]
  simp [joinWords]

/-- Witness for `C10_whitespace_prompt` at the single-space prompt. -/
theorem C10_witness :
    parse_tasks_directly (str " ") ⟨2025, 6, 10⟩ =
      [⟨[], str "12:00 PM", str "1:00 PM", formatS (addDays ⟨2025, 6, 10⟩ 1)⟩] :=
  C10_whitespace_prompt (str " ") ⟨2025, 6, 10⟩ (by decide)

/-! ## C8: the hint's date string flows through verbatim -/

theorem timeMatchAt_caps {s : Chars} {cap : TimeCap}
    (h : timeMatchAt s = some cap) :
    cap.hourStr ≠ [] ∧ (∀ c ∈ cap.hourStr, c.isDigit = true) ∧
      (∀ c ∈ cap.minStr, c.isDigit = true) := by
  unfold timeMatchAt at h
  dsimp only at h
  by_cases he : (spanP Char.isDigit s).1.isEmpty
  · rw [if_pos he] at h
    simp at h
  · rw [if_neg he] at h
    cases hm : meridAt (((spanP Char.isDigit
        (match (spanP Char.isDigit s).2 with
          | ':' :: t => t
          | r => r)).2).dropWhile isPySpace) with
    | none => rw [hm] at h; simp at h
    | some pm =>
      rw [hm] at h
      simp only [Option.some.injEq] at h
      subst h
      refine ⟨by simpa using he, spanP_fst_all _ _, spanP_fst_all _ _⟩

theorem parse12h_render12_any (e mm : Int) :
    ∃ x p, parse12h (render12 e mm) = some (x, mm, p) := by
  unfold render12
  split
  · split <;>
      exact ⟨_, str "PM", parse12h_build (intReprS_ne_nil _) (intReprS_not_space _)
        (intReprS_not_colon _) (pad2Int_not_space _) (pad2Int_not_colon _)
        (by decide) (by decide) (parseIntPy_intReprS _) (parseIntPy_pad2Int _)⟩
  · split <;>
      exact ⟨_, str "AM", parse12h_build (intReprS_ne_nil _) (intReprS_not_space _)
        (intReprS_not_colon _) (pad2Int_not_space _) (pad2Int_not_colon _)
        (by decide) (by decide) (parseIntPy_intReprS _) (parseIntPy_pad2Int _)⟩

theorem parse12h_promptTimeRaw (prompt : Chars) :
    ∃ x y p, parse12h (promptTimeRaw prompt) = some (x, y, p) := by
  unfold promptTimeRaw
  cases ht : timeSearch prompt with
  | none => exact ⟨12, 0, str "PM", by decide⟩
  | some cap =>
    dsimp only
    obtain ⟨a, b, rfl, hb⟩ := scanOpt_some ht
    obtain ⟨hne, hdh, hdm⟩ := timeMatchAt_caps hb
    by_cases hmins : cap.minStr.isEmpty
    · rw [if_pos hmins]
      refine ⟨(digitsVal cap.hourStr : Int), (digitsVal (str "00") : Int),
        ampmStr cap.isPM, ?_⟩
      exact parse12h_build hne (fun c hc => digit_not_space (hdh c hc))
        (fun c hc => digit_not_colon (hdh c hc))
        (by decide) (by decide) (ampmStr_ne_nil _) (ampmStr_not_space _)
        (parseIntPy_digits hne hdh) (parseIntPy_digits (by decide) (by decide))
    · rw [if_neg hmins]
      refine ⟨(digitsVal cap.hourStr : Int), (digitsVal cap.minStr : Int),
        ampmStr cap.isPM, ?_⟩
      exact parse12h_build hne (fun c hc => digit_not_space (hdh c hc))
        (fun c hc => digit_not_colon (hdh c hc))
        (fun c hc => digit_not_space (hdm c hc))
        (fun c hc => digit_not_colon (hdm c hc))
        (ampmStr_ne_nil _) (ampmStr_not_space _)
        (parseIntPy_digits hne hdh)
        (parseIntPy_digits (by simpa using hmins) hdm)

theorem parse12h_startTimeResolve (a : Analysis) (prompt : Chars) :
    ∃ x y p, parse12h (startTimeResolve a prompt) = some (x, y, p) := by
  unfold startTimeResolve
  cases hst : a.start_time with
  | none => exact parse12h_promptTimeRaw prompt
  | some st =>
    dsimp only
    by_cases hemp : st.isEmpty
    · rw [if_pos hemp]
      exact parse12h_promptTimeRaw prompt
    · rw [if_neg hemp]
      cases hc : convert24 st with
      | none => exact parse12h_promptTimeRaw prompt
      | some s =>
        unfold convert24 at hc
        cases hsp : splitColon st with
        | nil => rw [hsp] at hc; simp at hc
        | cons w1 rest =>
          cases rest with
          | nil => rw [hsp] at hc; simp at hc
          | cons w2 rest2 =>
            cases rest2 with
            | cons w3 rest3 => rw [hsp] at hc; simp at hc
            | nil =>
              rw [hsp] at hc
              dsimp only at hc
              cases hi1 : parseIntPy w1 with
              | none => rw [hi1] at hc; simp at hc
              | some hv =>
                cases hi2 : parseIntPy w2 with
                | none => rw [hi1, hi2] at hc; simp at hc
                | some mv =>
                  rw [hi1, hi2] at hc
                  simp only [Option.some.injEq] at hc
                  subst hc
                  obtain ⟨x, p, hp⟩ := parse12h_render12_any hv mv
                  exact ⟨x, mv, p, hp⟩

theorem calc12h_succeeds {s : Chars} {x y : Int} {p : Chars}
    (hp : parse12h s = some (x, y, p)) (d : Int) :
    ∃ e, calculate_end_time_from_12h s (some d) = some e := by
  unfold calculate_end_time_from_12h calc12hCore
  rw [hp]
  exact ⟨_, rfl⟩

/-- C8 (confirmed): in both normalizer variants, a hint with a truthy
`event_name` and a (truthy) `date` string — however malformed — produces
exactly one task whose `date` field is the hint's string verbatim: no format
or calendar validation is applied to it.  (For the `main_gemini.py` variant
the duration must not be an explicit JSON `null`, since that variant raises
on a `None` duration instead of producing a task.) -/
theorem C8_date_verbatim :
    (∀ (a : Analysis) (prompt : Chars) (today : Date) (d : Chars),
       truthyS a.event_name = true → a.date = some d → d ≠ [] →
       ∃ t : SchedTask, convert_analysis_to_tasks_g a prompt today = [t] ∧
         t.date = d) ∧
    (∀ (a : Analysis) (prompt : Chars) (d : Chars),
       truthyS a.event_name = true → a.date = some d → d ≠ [] →
       a.duration ≠ some none →
       ∃ t : SchedTask, convert_analysis_to_tasks a prompt = some [t] ∧
         t.date = d) := by
  constructor
  · intro a prompt today d ht hd hdne
    cases he : a.event_name with
    | none => rw [he] at ht; simp [truthyS] at ht
    | some en =>
      rw [he] at ht
      simp only [truthyS, Bool.not_eq_true'] at ht
      refine ⟨⟨en, startTimeResolve a prompt,
        calculate_end_time_from_12h_g (startTimeResolve a prompt)
          (durationGet a), d⟩, ?_, rfl⟩
      simp only [convert_analysis_to_tasks_g, he, hd]
      rw [if_neg (by simpa using ht)]
      rw [if_neg (by simpa using hdne)]
  · intro a prompt d ht hd hdne hdur
    cases he : a.event_name with
    | none => rw [he] at ht; simp [truthyS] at ht
    | some en =>
      rw [he] at ht
      simp only [truthyS, Bool.not_eq_true'] at ht
      have hget : ∃ n : Int, durationGet a = some n := by
        unfold durationGet
        cases hda : a.duration with
        | none => exact ⟨60, rfl⟩
        | some o =>
          cases o with
          | none => exact absurd hda hdur
          | some n => exact ⟨n, rfl⟩
      obtain ⟨n, hn⟩ := hget
      obtain ⟨x, y, p, hp⟩ := parse12h_startTimeResolve a prompt
      obtain ⟨e, hcalc⟩ := calc12h_succeeds hp n
      refine ⟨⟨en, startTimeResolve a prompt, e, d⟩, ?_, rfl⟩
      simp only [convert_analysis_to_tasks, he, hd]
      rw [if_neg (by
        rintro (h | h)
        · exact absurd h (by simpa using ht)
        · exact absurd h (by simpa using hdne))]
      rw [hn, hcalc]

/-- Witness for `C8_date_verbatim`: the malformed date `"NOT-A-DATE"`
reaches the produced task unchanged in both variants. -/
theorem C8_witness :
    (∃ t : SchedTask,
       convert_analysis_to_tasks_g
         ⟨true, some (str "Lunch"), some (str "NOT-A-DATE"), none, none⟩
         (str "x") ⟨2025, 6, 10⟩ = [t] ∧ t.date = str "NOT-A-DATE") ∧
    (∃ t : SchedTask,
       convert_analysis_to_tasks
         ⟨true, some (str "Lunch"), some (str "NOT-A-DATE"), none, none⟩
         (str "x") = some [t] ∧ t.date = str "NOT-A-DATE") :=
  ⟨C8_date_verbatim.1 ⟨true, some (str "Lunch"), some (str "NOT-A-DATE"),
      none, none⟩ (str "x") ⟨2025, 6, 10⟩ (str "NOT-A-DATE")
      (by decide) rfl (by decide),
    C8_date_verbatim.2 ⟨true, some (str "Lunch"), some (str "NOT-A-DATE"),
      none, none⟩ (str "x") (str "NOT-A-DATE")
      (by decide) rfl (by decide) (by simp)⟩

/-! ## C3 / C9: the bare-weekday rule and its shadowing of "next weekday" -/

theorem parse_date_weekday_branch {prompt : Chars} {today : Date} {w : Nat}
    (h1 : containsSub (str "today") (toLowerStr prompt) = false)
    (h2 : containsSub (str "tomorrow") (toLowerStr prompt) = false)
    (h3 : containsSub (str "next week") (toLowerStr prompt) = false)
    (hw : weekdayScan (toLowerStr prompt) = some w) :
    parse_date_from_prompt prompt today =
      formatS (addDays today (daysUntil today w)) := by
  unfold parse_date_from_prompt
  dsimp only
  rw [h1, h2, h3, hw]
  simp

theorem keyScan_val_lt {pl : Chars} {w : Nat} :
    ∀ {L : List (Chars × Nat)}, (∀ p ∈ L, p.2 < 7) →
      keyScan L pl = some w → w < 7 := by
  intro L
  induction L with
  | nil => intro _ h; simp [keyScan] at h
  | cons kn rest ih =>
    intro hL h
    obtain ⟨k, n⟩ := kn
    unfold keyScan at h
    by_cases hc : containsSub k pl = true
    · rw [if_pos hc] at h
      simp only [Option.some.injEq] at h
      exact h ▸ hL (k, n) (by simp)
    · rw [if_neg hc] at h
      exact ih (fun p hp => hL p (by simp [hp])) h

theorem keyScan_isSome {pl key : Chars} {n : Nat} :
    ∀ {L : List (Chars × Nat)}, (key, n) ∈ L → containsSub key pl = true →
      ∃ w, keyScan L pl = some w := by
  intro L
  induction L with
  | nil => intro hmem _; simp at hmem
  | cons kn rest ih =>
    intro hmem hc
    obtain ⟨k, m⟩ := kn
    unfold keyScan
    by_cases hck : containsSub k pl = true
    · exact ⟨m, by rw [if_pos hck]⟩
    · rw [if_neg hck]
      rcases List.mem_cons.mp hmem with heq | hmem2
      · exfalso
        have hk : key = k := congrArg Prod.fst heq
        rw [hk] at hc
        exact hck hc
      · exact ih hmem2 hc

theorem altTry_mem {s : Chars} {n : Nat} :
    ∀ {L : List (Chars × Nat)}, altTry s L = some n →
      ∃ alt m r, (alt, m) ∈ L ∧ litPlain alt s = some r := by
  intro L
  induction L with
  | nil => intro h; simp [altTry] at h
  | cons kn rest ih =>
    intro h
    obtain ⟨alt, m⟩ := kn
    unfold altTry at h
    cases hlit : litPlain alt s with
    | none =>
      rw [hlit] at h
      obtain ⟨a2, m2, r2, hmem, hl⟩ := ih h
      exact ⟨a2, m2, r2, by simp [hmem], hl⟩
    | some r => exact ⟨alt, m, r, by simp, hlit⟩

/-- Whenever the anchored "next weekday" pattern matches somewhere in the
prompt, the matched weekday name is a substring of the prompt, so the bare
weekday dictionary scan (run first by the source) necessarily also finds a
key: the "+7" branch is unreachable. -/
theorem nextDaySearch_weekday {pl : Chars} {w : Nat}
    (h : nextDaySearch pl = some w) :
    ∃ key n, (key, n) ∈ weekdayKeys ∧ containsSub key pl = true := by
  obtain ⟨a, b, rfl, hb⟩ := scanOpt_some h
  unfold nextDayMatchAt at hb
  cases hlit : litPlain (str "next") b with
  | none => rw [hlit] at hb; simp at hb
  | some r =>
    rw [hlit] at hb
    dsimp only at hb
    by_cases hsp : (spanP isPySpace r).1.isEmpty
    · rw [if_pos hsp] at hb
      simp at hb
    · rw [if_neg hsp] at hb
      obtain ⟨alt, m, r2, hmem, hl⟩ := altTry_mem hb
      have hsubkeys : ∀ p ∈ nextDayAlts, p ∈ weekdayKeys := by decide
      refine ⟨alt, m, hsubkeys (alt, m) hmem, ?_⟩
      rw [containsSub_iff]
      refine ⟨a ++ str "next" ++ (spanP isPySpace r).1, r2, ?_⟩
      have hb_eq : b = str "next" ++ r := litPlain_eq_append hlit
      have hr_eq : (spanP isPySpace r).1 ++ (spanP isPySpace r).2 = r :=
        spanP_append _ _
      have hr2 : (spanP isPySpace r).2 = alt ++ r2 := litPlain_eq_append hl
      calc a ++ b
          = a ++ (str "next" ++ ((spanP isPySpace r).1 ++ (alt ++ r2))) := by
            rw [hb_eq, ← hr2, hr_eq]
        _ = a ++ str "next" ++ (spanP isPySpace r).1 ++ alt ++ r2 := by simp

/-- C3 (corrected): the claim says a prompt containing "next weekday"
(and none of the earlier literal rules) resolves to the next occurrence of
that weekday plus an extra 7 days.  In the source the bare-weekday scan runs
first and any "next weekday" prompt contains the weekday name, so the
resolver returns the plain next occurrence of the first matching dictionary
key — strictly after the reference date, at most 7 days out, and without
the extra week; the "+7" branch is dead code. -/
theorem C3_amended :
    ∀ (prompt : Chars) (today : Date) (w : Nat),
      validDate today → 1 ≤ today.year →
      containsSub (str "today") (toLowerStr prompt) = false →
      containsSub (str "tomorrow") (toLowerStr prompt) = false →
      containsSub (str "next week") (toLowerStr prompt) = false →
      nextDaySearch (toLowerStr prompt) = some w →
      ∃ w', weekdayScan (toLowerStr prompt) = some w' ∧
        parse_date_from_prompt prompt today =
          formatS (addDays today (daysUntil today w')) ∧
        1 ≤ daysUntil today w' ∧ daysUntil today w' ≤ 7 ∧
        weekdayOf (addDays today (daysUntil today w')) = w' := by
  intro prompt today w hv hy h1 h2 h3 hnext
  obtain ⟨key, n, hmem, hsub⟩ := nextDaySearch_weekday hnext
  obtain ⟨w', hw'⟩ := keyScan_isSome hmem hsub
  have hlt : w' < 7 := keyScan_val_lt (by decide) hw'
  exact ⟨w', hw', parse_date_weekday_branch h1 h2 h3 hw',
    daysUntil_pos today w', daysUntil_le today w',
    weekdayOf_daysUntil hv hy hlt⟩

/-- C3 counterexample: on Tuesday 2025-06-10 the prompt "next monday"
matches the "next weekday" pattern and none of the earlier literal rules,
yet the resolver returns 2025-06-16 (the plain next Monday) — not the
claimed next-Monday-plus-7-days 2025-06-23. -/
theorem C3_counterexample :
    nextDaySearch (toLowerStr (str "next monday")) = some 0 ∧
    containsSub (str "today") (toLowerStr (str "next monday")) = false ∧
    containsSub (str "tomorrow") (toLowerStr (str "next monday")) = false ∧
    containsSub (str "next week") (toLowerStr (str "next monday")) = false ∧
    parse_date_from_prompt (str "next monday") ⟨2025, 6, 10⟩ =
      str "2025-06-16" ∧
    formatS (addDays ⟨2025, 6, 10⟩ (daysUntil ⟨2025, 6, 10⟩ 0)) =
      str "2025-06-16" ∧
    formatS (addDays ⟨2025, 6, 10⟩ (daysUntil ⟨2025, 6, 10⟩ 0 + 7)) =
      str "2025-06-23" ∧
    str "2025-06-16" ≠ str "2025-06-23" := by
  refine ⟨?_, ?_, ?_, ?_, ?_, ?_, ?_, ?_⟩ <;> decide

/-- Witness for `C3_amended` for the prompt "next monday" on 2025-06-10. -/
theorem C3_witness :
    ∃ w', weekdayScan (toLowerStr (str "next monday")) = some w' ∧
      parse_date_from_prompt (str "next monday") ⟨2025, 6, 10⟩ =
        formatS (addDays ⟨2025, 6, 10⟩ (daysUntil ⟨2025, 6, 10⟩ w')) ∧
      1 ≤ daysUntil ⟨2025, 6, 10⟩ w' ∧ daysUntil ⟨2025, 6, 10⟩ w' ≤ 7 ∧
      weekdayOf (addDays ⟨2025, 6, 10⟩ (daysUntil ⟨2025, 6, 10⟩ w')) = w' :=
  C3_amended (str "next monday") ⟨2025, 6, 10⟩ 0 (by decide) (by decide)
    (by decide) (by decide) (by decide) (by decide)

/-- C9 (confirmed): the bare-weekday rule tests each dictionary key with a
plain substring check, so a weekday abbreviation hidden inside another word
triggers it; whenever the scan finds a key (and no earlier literal rule
fired), the resolver returns the next occurrence of that weekday — strictly
after the reference date, at most 7 days out, and landing on that weekday —
instead of the default reference + 1 day.  Concretely, "sat" inside
"conversation" selects Saturday (5) and "mon" inside "month" selects
Monday (0). -/
theorem C9_substring_weekday :
    (∀ (prompt : Chars) (today : Date) (w : Nat),
       validDate today → 1 ≤ today.year →
       containsSub (str "today") (toLowerStr prompt) = false →
       containsSub (str "tomorrow") (toLowerStr prompt) = false →
       containsSub (str "next week") (toLowerStr prompt) = false →
       weekdayScan (toLowerStr prompt) = some w →
       parse_date_from_prompt prompt today =
         formatS (addDays today (daysUntil today w)) ∧
       1 ≤ daysUntil today w ∧ daysUntil today w ≤ 7 ∧
       weekdayOf (addDays today (daysUntil today w)) = w) ∧
    weekdayScan (toLowerStr (str "a conversation")) = some 5 ∧
    weekdayScan (toLowerStr (str "this month")) = some 0 := by
  refine ⟨?_, by decide, by decide⟩
  intro prompt today w hv hy h1 h2 h3 hw
  have hlt : w < 7 := keyScan_val_lt (by decide) hw
  exact ⟨parse_date_weekday_branch h1 h2 h3 hw, daysUntil_pos _ _,
    daysUntil_le _ _, weekdayOf_daysUntil hv hy hlt⟩

/-- Witness for `C9_substring_weekday`: "a conversation" resolves to the
Saturday after 2025-06-10. -/
theorem C9_witness :
    parse_date_from_prompt (str "a conversation") ⟨2025, 6, 10⟩ =
      formatS (addDays ⟨2025, 6, 10⟩ (daysUntil ⟨2025, 6, 10⟩ 5)) ∧
    1 ≤ daysUntil ⟨2025, 6, 10⟩ 5 ∧ daysUntil ⟨2025, 6, 10⟩ 5 ≤ 7 ∧
    weekdayOf (addDays ⟨2025, 6, 10⟩ (daysUntil ⟨2025, 6, 10⟩ 5)) = 5 :=
  C9_substring_weekday.1 (str "a conversation") ⟨2025, 6, 10⟩ 5 (by decide)
    (by decide) (by decide) (by decide) (by decide) (by decide)

/-! ## C7: month/day rule validation -/

theorem monthGo_cons (today : Date) (pl name : Chars) (num : Nat)
    (rest : List (Chars × Nat)) :
    monthGo today pl ((name, num) :: rest) =
      match monthRegexSearch name pl with
      | some dg =>
        if 1 ≤ digitsVal dg ∧ digitsVal dg ≤ monthLength
            (if num < today.month ∨ (num = today.month ∧ digitsVal dg < today.day)
             then today.year + 1 else today.year) num
        then some (formatF ⟨(if num < today.month ∨
            (num = today.month ∧ digitsVal dg < today.day)
            then today.year + 1 else today.year), num, digitsVal dg⟩)
        else monthGo today pl rest
      | none => monthGo today pl rest := rfl

theorem monthGo_skip_none {today : Date} {pl name : Chars} {num : Nat}
    {rest : List (Chars × Nat)} (h : monthRegexSearch name pl = none) :
    monthGo today pl ((name, num) :: rest) = monthGo today pl rest := by
  rw [monthGo_cons, h]

theorem monthLength_feb (y : Nat) :
    monthLength y 2 = if isLeap y then 29 else 28 := rfl

theorem monthGo_sound {today : Date} {pl s : Chars} :
    ∀ {L : List (Chars × Nat)}, (∀ p ∈ L, 1 ≤ p.2 ∧ p.2 ≤ 12) →
      monthGo today pl L = some s → ∃ dd, validDate dd ∧ s = formatF dd := by
  intro L
  induction L with
  | nil => intro _ h; simp [monthGo] at h
  | cons kn rest ih =>
    intro hL h
    obtain ⟨name, num⟩ := kn
    unfold monthGo at h
    cases hsearch : monthRegexSearch name pl with
    | none =>
      rw [hsearch] at h
      exact ih (fun p hp => hL p (by simp [hp])) h
    | some dg =>
      rw [hsearch] at h
      dsimp only at h
      by_cases hg : 1 ≤ digitsVal dg ∧ digitsVal dg ≤ monthLength
          (if num < today.month ∨ (num = today.month ∧ digitsVal dg < today.day)
           then today.year + 1 else today.year) num
      · rw [if_pos hg] at h
        simp only [Option.some.injEq] at h
        refine ⟨⟨(if num < today.month ∨
            (num = today.month ∧ digitsVal dg < today.day)
            then today.year + 1 else today.year), num, digitsVal dg⟩,
          ⟨(hL (name, num) (by simp)).1, (hL (name, num) (by simp)).2,
            hg.1, hg.2⟩, h.symm⟩
      · rw [if_neg hg] at h
        exact ih (fun p hp => hL p (by simp [hp])) h

/-- C7 (confirmed): the month/day rule of the date resolver constructs the
candidate year exactly as the source does (next year when the candidate
month/day lies strictly before today), skips any candidate whose day number
exceeds the resolved year/month's length — falling through to the next rule
rather than erroring — and only ever emits calendar-valid dates.  In
particular "feb 30" is always rejected (the whole resolver then defaults to
reference + 1 day), while "feb 29" is accepted exactly when the resolved
year is a leap year. -/
theorem C7_month_day_validation :
    (∀ (today : Date) (pl name : Chars) (num : Nat)
       (rest : List (Chars × Nat)) (dg : Chars),
       monthRegexSearch name pl = some dg →
       ¬(1 ≤ digitsVal dg ∧ digitsVal dg ≤ monthLength
           (if num < today.month ∨ (num = today.month ∧ digitsVal dg < today.day)
            then today.year + 1 else today.year) num) →
       monthGo today pl ((name, num) :: rest) = monthGo today pl rest) ∧
    (∀ (today : Date) (pl s : Chars),
       monthScan pl today = some s → ∃ dd, validDate dd ∧ s = formatF dd) ∧
    (∀ today : Date, monthScan (str "feb 30") today = none ∧
       parse_date_from_prompt (str "feb 30") today =
         formatS (addDays today 1)) ∧
    (∀ today : Date,
       monthScan (str "feb 29") today =
         (if isLeap (if 2 < today.month ∨ (2 = today.month ∧ 29 < today.day)
             then today.year + 1 else today.year)
          then some (formatF
            ⟨(if 2 < today.month ∨ (2 = today.month ∧ 29 < today.day)
              then today.year + 1 else today.year), 2, 29⟩)
          else none)) := by
  have hskip : ∀ (today : Date) (pl name : Chars) (num : Nat)
      (rest : List (Chars × Nat)) (dg : Chars),
      monthRegexSearch name pl = some dg →
      ¬(1 ≤ digitsVal dg ∧ digitsVal dg ≤ monthLength
          (if num < today.month ∨ (num = today.month ∧ digitsVal dg < today.day)
           then today.year + 1 else today.year) num) →
      monthGo today pl ((name, num) :: rest) = monthGo today pl rest := by
    intro today pl name num rest dg hsearch hguard
    rw [monthGo_cons, hsearch]
    dsimp only
    rw [if_neg hguard]
  refine ⟨hskip, fun today pl s h => monthGo_sound (by decide) h, ?_, ?_⟩
  · intro today
    have h30 : monthScan (str "feb 30") today = none := by
      unfold monthScan monthKeys
      rw [monthGo_skip_none (by decide), monthGo_skip_none (by decide),
        monthGo_skip_none (by decide)]
      rw [hskip today _ _ 2 _ (str "30") (by decide) (by
        rw [show digitsVal (str "30") = 30 from by decide]
        intro hg
        have h2 := hg.2
        rw [monthLength_feb] at h2
        split at h2 <;> split at h2 <;> omega)]
      rw [monthGo_skip_none (by decide), monthGo_skip_none (by decide),
        monthGo_skip_none (by decide), monthGo_skip_none (by decide),
        monthGo_skip_none (by decide), monthGo_skip_none (by decide),
        monthGo_skip_none (by decide), monthGo_skip_none (by decide),
        monthGo_skip_none (by decide), monthGo_skip_none (by decide),
        monthGo_skip_none (by decide), monthGo_skip_none (by decide),
        monthGo_skip_none (by decide), monthGo_skip_none (by decide),
        monthGo_skip_none (by decide), monthGo_skip_none (by decide),
        monthGo_skip_none (by decide), monthGo_skip_none (by decide),
        monthGo_skip_none (by decide), monthGo_skip_none (by decide)]
      rfl
    refine ⟨h30, ?_⟩
    unfold parse_date_from_prompt
    dsimp only
    rw [show toLowerStr (str "feb 30") = str "feb 30" from by decide]
    rw [show containsSub (str "today") (str "feb 30") = false from by decide]
    rw [show containsSub (str "tomorrow") (str "feb 30") = false from by decide]
    rw [show containsSub (str "next week") (str "feb 30") = false from by decide]
    rw [show weekdayScan (str "feb 30") = none from by decide]
    rw [show nextDaySearch (str "feb 30") = none from by decide]
    rw [h30]
    unfold mmddResolve isoResolve
    rw [show scanOpt mmddMatchAt (str "feb 30") = none from by decide]
    rw [show scanOpt isoMatchAt (str "feb 30") = none from by decide]
    simp
  · intro today
    unfold monthScan monthKeys
    rw [monthGo_skip_none (by decide), monthGo_skip_none (by decide),
      monthGo_skip_none (by decide)]
    unfold monthGo
    rw [show monthRegexSearch (str "feb") (str "feb 29") = some (str "29")
      from by decide]
    dsimp only
    rw [show digitsVal (str "29") = 29 from by decide]
    have hrest : monthGo today (str "feb 29")
        [(str "march", 3), (str "mar", 3), (str "april", 4), (str "apr", 4),
         (str "may", 5), (str "june", 6), (str "jun", 6), (str "july", 7),
         (str "jul", 7), (str "august", 8), (str "aug", 8),
         (str "september", 9), (str "sep", 9), (str "sept", 9),
         (str "october", 10), (str "oct", 10), (str "november", 11),
         (str "nov", 11), (str "december", 12), (str "dec", 12)] = none := by
      rw [monthGo_skip_none (by decide), monthGo_skip_none (by decide),
        monthGo_skip_none (by decide), monthGo_skip_none (by decide),
        monthGo_skip_none (by decide), monthGo_skip_none (by decide),
        monthGo_skip_none (by decide), monthGo_skip_none (by decide),
        monthGo_skip_none (by decide), monthGo_skip_none (by decide),
        monthGo_skip_none (by decide), monthGo_skip_none (by decide),
        monthGo_skip_none (by decide), monthGo_skip_none (by decide),
        monthGo_skip_none (by decide), monthGo_skip_none (by decide),
        monthGo_skip_none (by decide), monthGo_skip_none (by decide),
        monthGo_skip_none (by decide), monthGo_skip_none (by decide)]
      rfl
    by_cases hleap : isLeap (if 2 < today.month ∨
        (2 = today.month ∧ 29 < today.day)
        then today.year + 1 else today.year)
    · rw [if_pos hleap]
      rw [if_pos (by
        refine ⟨by omega, ?_⟩
        rw [monthLength_feb, if_pos hleap])]
    · rw [if_neg hleap]
      rw [if_neg (by
        intro hg
        have h2 := hg.2
        rw [monthLength_feb, if_neg hleap] at h2
        omega)]
      exact hrest

/-- Witness for `C7_month_day_validation`: with reference date 2025-06-10,
"feb 30" is rejected by the month rule and the resolver falls back to
tomorrow; with reference 2027-06-10, "feb 29" resolves into leap year 2028
and the soundness conjunct certifies the emitted date calendar-valid. -/
theorem C7_witness :
    monthScan (str "feb 30") ⟨2025, 6, 10⟩ = none ∧
    parse_date_from_prompt (str "feb 30") ⟨2025, 6, 10⟩ =
      formatS (addDays ⟨2025, 6, 10⟩ 1) ∧
    monthScan (str "feb 29") ⟨2027, 6, 10⟩ = some (formatF ⟨2028, 2, 29⟩) ∧
    (∃ dd, validDate dd ∧ formatF ⟨2028, 2, 29⟩ = formatF dd) := by
  have h29 : monthScan (str "feb 29") ⟨2027, 6, 10⟩ =
      some (formatF ⟨2028, 2, 29⟩) := by
    rw [C7_month_day_validation.2.2.2 ⟨2027, 6, 10⟩]
    decide
  exact ⟨(C7_month_day_validation.2.2.1 ⟨2025, 6, 10⟩).1,
    (C7_month_day_validation.2.2.1 ⟨2025, 6, 10⟩).2, h29,
    C7_month_day_validation.2.1 ⟨2027, 6, 10⟩ (str "feb 29") _ h29⟩

/-! ## C1: shape and validity of the tasks returned by the direct path -/

theorem splitWsAux_mem_ne_nil :
    ∀ (s cur w : Chars), w ∈ splitWsAux cur s → w ≠ [] := by
  intro s
  induction s with
  | nil =>
    intro cur w hw
    rw [splitWsAux_nil] at hw
    cases cur with
    | nil => simp at hw
    | cons a as =>
      rw [if_neg (by simp)] at hw
      simp only [List.mem_singleton] at hw
      subst hw
      simp
  | cons c rest ih =>
    intro cur w hw
    rw [splitWsAux_cons] at hw
    by_cases hsp : isPySpace c = true
    · rw [if_pos hsp] at hw
      cases cur with
      | nil =>
        rw [if_pos (by simp)] at hw
        exact ih [] w hw
      | cons a as =>
        rw [if_neg (by simp)] at hw
        rcases List.mem_cons.mp hw with h | h
        · subst h; simp
        · exact ih [] w h
    · rw [if_neg hsp] at hw
      exact ih (c :: cur) w hw

theorem joinWords_ne_nil {L : List Chars} (hmem : ∀ w ∈ L, w ≠ [])
    (hL : L ≠ []) : joinWords L ≠ [] := by
  match L with
  | [] => exact absurd rfl hL
  | [w] => exact hmem w (by simp)
  | w :: y :: ys =>
    show w ++ ' ' :: joinWords (y :: ys) ≠ []
    simp

theorem mmddResolve_sound {prompt : Chars} {today : Date} {s : Chars}
    (h : mmddResolve prompt today = some s) :
    ∃ dd, validDate dd ∧ s = formatF dd := by
  unfold mmddResolve at h
  cases hc : scanOpt mmddMatchAt prompt with
  | none => rw [hc] at h; exact absurd h (by simp)
  | some cap =>
    rw [hc] at h
    dsimp only at h
    split at h
    · split at h
      · rename_i h1 h2
        injection h with h2'
        exact ⟨_, ⟨h1.1, h1.2, h2.1, h2.2⟩, h2'.symm⟩
      · exact absurd h (by simp)
    · exact absurd h (by simp)

theorem isoResolve_sound {prompt s : Chars}
    (h : isoResolve prompt = some s) :
    ∃ dd, validDate dd ∧ s = formatF dd := by
  unfold isoResolve at h
  cases hc : scanOpt isoMatchAt prompt with
  | none => rw [hc] at h; exact absurd h (by simp)
  | some cap =>
    rw [hc] at h
    dsimp only at h
    split at h
    · split at h
      · rename_i h1 h2
        injection h with h2'
        exact ⟨_, ⟨h1.1, h1.2, h2.1, h2.2⟩, h2'.symm⟩
      · exact absurd h (by simp)
    · exact absurd h (by simp)

theorem parse_date_sound (prompt : Chars) {today : Date}
    (h : validDate today) :
    ∃ dd, validDate dd ∧
      (parse_date_from_prompt prompt today = formatS dd ∨
       parse_date_from_prompt prompt today = formatF dd) := by
  unfold parse_date_from_prompt
  dsimp only
  by_cases h1 : containsSub (str "today") (toLowerStr prompt) = true
  · rw [if_pos h1]
    exact ⟨today, h, Or.inl rfl⟩
  rw [if_neg h1]
  by_cases h2 : containsSub (str "tomorrow") (toLowerStr prompt) = true
  · rw [if_pos h2]
    exact ⟨addDays today 1, addDays_valid h 1, Or.inl rfl⟩
  rw [if_neg h2]
  by_cases h3 : containsSub (str "next week") (toLowerStr prompt) = true
  · rw [if_pos h3]
    exact ⟨addDays today 7, addDays_valid h 7, Or.inl rfl⟩
  rw [if_neg h3]
  cases hw : weekdayScan (toLowerStr prompt) with
  | some w =>
    dsimp only
    exact ⟨addDays today (daysUntil today w), addDays_valid h _, Or.inl rfl⟩
  | none =>
    dsimp only
    cases hn : nextDaySearch (toLowerStr prompt) with
    | some w =>
      dsimp only
      exact ⟨addDays today (daysUntil today w + 7), addDays_valid h _,
        Or.inl rfl⟩
    | none =>
      dsimp only
      cases hm : monthScan (toLowerStr prompt) today with
      | some s =>
        dsimp only
        obtain ⟨dd2, hdd2, hs⟩ := monthGo_sound (by decide) hm
        exact ⟨dd2, hdd2, Or.inr hs⟩
      | none =>
        dsimp only
        cases hmd : mmddResolve prompt today with
        | some s =>
          dsimp only
          obtain ⟨dd2, hdd2, hs⟩ := mmddResolve_sound hmd
          exact ⟨dd2, hdd2, Or.inr hs⟩
        | none =>
          dsimp only
          cases hiso : isoResolve prompt with
          | some s =>
            dsimp only
            obtain ⟨dd2, hdd2, hs⟩ := isoResolve_sound hiso
            exact ⟨dd2, hdd2, Or.inr hs⟩
          | none =>
            dsimp only
            exact ⟨addDays today 1, addDays_valid h 1, Or.inl rfl⟩

theorem taskListOf_mem {α : Type} {o : Option α} {f : α → SchedTask}
    {t : SchedTask} (h : t ∈ taskListOf o f) : ∃ x, t = f x := by
  cases o with
  | none => simp [taskListOf] at h
  | some x =>
    refine ⟨x, ?_⟩
    simpa [taskListOf] using h

theorem mkPatternTask_name (nm : Chars) (cap : TimeCap) (dur : Nat)
    (d : Chars) : (mkPatternTask nm cap dur d).name = nm := rfl

theorem mkPatternTask_date (nm : Chars) (cap : TimeCap) (dur : Nat)
    (d : Chars) : (mkPatternTask nm cap dur d).date = d := rfl

theorem genericTask_date (prompt d : Chars) (dur : Nat) :
    (genericTask prompt d dur).date = d := by
  unfold genericTask
  cases timeSearch prompt <;> rfl

theorem genericTask_name (prompt d : Chars) (dur : Nat) :
    (genericTask prompt d dur).name = joinWords ((splitWs prompt).take 5) := by
  unfold genericTask
  cases timeSearch prompt <;> rfl

theorem genericTask_name_nil {prompt d : Chars} {dur : Nat}
    (h : (genericTask prompt d dur).name = []) : splitWs prompt = [] := by
  rw [genericTask_name] at h
  cases hsp : splitWs prompt with
  | nil => rfl
  | cons w ws =>
    exfalso
    rw [hsp] at h
    refine joinWords_ne_nil ?_ ?_ h
    · intro x hx
      have hxmem : x ∈ splitWs prompt := by
        rw [hsp]
        exact List.take_subset _ _ hx
      exact splitWsAux_mem_ne_nil prompt [] x hxmem
    · simp

theorem append_ne_nil_of_left {a : Chars} (h : a ≠ []) (b : Chars) :
    a ++ b ≠ [] := by
  cases a with
  | nil => exact absurd rfl h
  | cons x xs => simp

/-- Counterexample to the literal C1: with reference date 2025-06-10, the
empty prompt yields a task whose name is the empty string (violating
"non-empty name"), and the prompt "at 19:99 pm" yields a task whose
start time "19:99 PM" has hour 19 and minute 99 (violating "hour in 1-12
and minute in 0-59"); in both cases the malformed field reaches the
caller unchanged. -/
theorem C1_counterexample :
    (parse_tasks_directly (str "") ⟨2025, 6, 10⟩ =
      [{ name := [], start_time := str "12:00 PM", end_time := str "1:00 PM",
         date := str "2025-06-11" }]) ∧
    (parse_tasks_directly (str "at 19:99 pm") ⟨2025, 6, 10⟩ =
      [{ name := str "at 19:99 pm", start_time := str "19:99 PM",
         end_time := str "8:99 PM", date := str "2025-06-11" }]) := by
  exact ⟨by decide, by decide⟩

/-- C1 (corrected): for every prompt and calendar-valid reference date the
direct-parse path does return a non-empty task list, and every returned
task's date is a real calendar date rendered by one of the two date
formatters of the source; but the name is empty whenever the prompt has no
non-whitespace character (pattern-task names are non-empty literals, so an
empty name forces the whitespace-only generic fallback), and, as the
counterexample shows, start and end times are not validated at all. -/
theorem C1_amended (prompt : Chars) (today : Date) (h : validDate today) :
    parse_tasks_directly prompt today ≠ [] ∧
    ∀ t ∈ parse_tasks_directly prompt today,
      (∃ dd, validDate dd ∧ (t.date = formatS dd ∨ t.date = formatF dd)) ∧
      (t.name = [] → splitWs prompt = []) := by
  obtain ⟨dd, hdd, hform⟩ := parse_date_sound prompt h
  constructor
  · unfold parse_tasks_directly
    dsimp only
    split
    · simp
    · rename_i hne
      intro hc
      apply hne
      rw [hc]
      rfl
  · intro t ht
    unfold parse_tasks_directly at ht
    dsimp only at ht
    split at ht
    · simp only [List.mem_singleton] at ht
      subst ht
      refine ⟨⟨dd, hdd, ?_⟩, fun hn => genericTask_name_nil hn⟩
      rw [genericTask_date]
      exact hform
    · rcases List.mem_append.mp ht with ht3 | htD
      · rcases List.mem_append.mp ht3 with ht2 | htC
        · rcases List.mem_append.mp ht2 with htA | htB
          · obtain ⟨x, hx⟩ := taskListOf_mem htA
            subst hx
            refine ⟨⟨dd, hdd, ?_⟩, fun hn => ?_⟩
            · rw [mkPatternTask_date]; exact hform
            · rw [mkPatternTask_name] at hn
              exact absurd hn (append_ne_nil_of_left (by decide) _)
          · obtain ⟨x, hx⟩ := taskListOf_mem htB
            subst hx
            refine ⟨⟨dd, hdd, ?_⟩, fun hn => ?_⟩
            · rw [mkPatternTask_date]; exact hform
            · rw [mkPatternTask_name] at hn
              exact absurd hn (by decide)
        · obtain ⟨x, hx⟩ := taskListOf_mem htC
          subst hx
          refine ⟨⟨dd, hdd, ?_⟩, fun hn => ?_⟩
          · rw [mkPatternTask_date]; exact hform
          · rw [mkPatternTask_name] at hn
            exact absurd hn (append_ne_nil_of_left (by decide) _)
      · obtain ⟨x, hx⟩ := taskListOf_mem htD
        subst hx
        refine ⟨⟨dd, hdd, ?_⟩, fun hn => ?_⟩
        · rw [mkPatternTask_date]; exact hform
        · rw [mkPatternTask_name] at hn
          exact absurd hn (append_ne_nil_of_left (by decide) _)

/-- Witness for `C1_amended` at the concrete prompt "gym at 6am" and
reference date 2025-06-10. -/
theorem C1_witness :
    parse_tasks_directly (str "gym at 6am") ⟨2025, 6, 10⟩ ≠ [] ∧
    ∀ t ∈ parse_tasks_directly (str "gym at 6am") ⟨2025, 6, 10⟩,
      (∃ dd, validDate dd ∧ (t.date = formatS dd ∨ t.date = formatF dd)) ∧
      (t.name = [] → splitWs (str "gym at 6am") = []) :=
  C1_amended (str "gym at 6am") ⟨2025, 6, 10⟩ (by decide)
